import Mathlib

/-!
Verification of devspace-delve-server: session manager, backend launcher and
relay engine.

A shallow embedding of `delve-server/delve-server.go` and of the accept loop of
`main.go`.

* Connections, listeners and the backend are external resources.  They are
  identified by numbers, and every call the program makes on them is appended
  to a trace of `Event`s, in program order.
* Every result that the outside world decides (what `Listener.Accept` returns,
  whether a read delivers bytes or fails, which `select` case is ready, ...)
  is an explicit argument of the embedded function.
* A run-time panic (nil dereference, index out of range) is the result `none`.
* The body of a goroutine is a function of its own; a concurrent run is a
  composition of such functions in the order of the interleaving.  A worker
  can be interleaved with the server before it starts, between its setup and
  its loop, between two iterations of its loop, and inside an iteration
  before its last write; `Accept` can be interleaved with `Close` while it
  waits on the listener.  Memory is
  sequentially consistent.
* The external listener is the TCP listener `main` makes, so the type
  assertions on its address in `createProxyConnection` succeed.
-/

namespace Delve

/-! ## Errors -/

/-- Go `error` values.  `sentinel` is a package-level error variable (compared
by identity), `wrap msg e` is `fmt.Errorf(msg + ": %w", e)`. -/
inductive GoError where
  | sentinel (name : String)
  | EOF
  | netClosed
  | other (msg : String)
  | wrap (msg : String) (inner : GoError)
  deriving DecidableEq, Repr

/-- The variable `ErrServerClosed = fmt.Errorf("server closed")`. -/
def ErrServerClosed : GoError := .sentinel "server closed"

/-- The error a `net.Listener` returns from `Accept` once it has been closed:
an `*net.OpError` around `net.ErrClosed`. -/
def listenerClosedErr : GoError := .wrap "accept tcp" .netClosed

/-- The function `errors.Is(err, target)`: walks the chain of wrapped errors
and compares each link with `target`. -/
def errorsIs : GoError → GoError → Bool
  | .wrap m inner, target => decide (GoError.wrap m inner = target) || errorsIs inner target
  | .sentinel n, target => decide (GoError.sentinel n = target)
  | .EOF, target => decide (GoError.EOF = target)
  | .netClosed, target => decide (GoError.netClosed = target)
  | .other m, target => decide (GoError.other m = target)

/-! ## Resources, events and the server state -/

abbrev ConnId := Nat

abbrev ListenerId := Nat

abbrev Byte := UInt8

/-- The fields of `service.Config` (and of its `debugger.Config`) that
`runDelve` fills from the server's own data. -/
structure ServiceConfig where
  Listener : ListenerId
  ProcessArgs : List String
  AcceptMulti : Bool
  APIVersion : Nat
  Foreground : Bool
  Packages : List String
  Stdout : String
  Stderr : String
  deriving DecidableEq, Repr

/-- One call of the program on the outside world, or one assignment to the
shared connection fields. -/
inductive Event where
  | listenerAccept (l : ListenerId)
  | listen (l : ListenerId)
  | dial (c : ConnId)
  | closeConn (c : ConnId)
  | closeListener (l : ListenerId)
  | setSrcConn (c : ConnId)
  | setDstConn (c : ConnId)
  | spawn (l : ListenerId)
  | goBuild (file : String) (args : List String)
  | newServer (cfg : ServiceConfig)
  | serverRun (l : ListenerId)
  | serverStop (l : ListenerId)
  | remove (file : String)
  | read (c : ConnId) (chunk : List Byte)
  | readFail (c : ConnId) (err : GoError)
  | write (c : ConnId) (chunk : List Byte)
  | writeFail (c : ConnId) (err : GoError)
  | logErr (msg : String) (err : GoError)
  | log (msg : String)
  deriving DecidableEq, Repr

/-- The struct `DelveServer` (the `Context` field is represented by the
cancellation inputs of the functions that look at it). -/
structure DelveServer where
  Listener : ListenerId
  Closed : Bool
  Stdout : String
  Stderr : String
  srcConn : Option ConnId
  dstConn : Option ConnId
  args : List String
  deriving DecidableEq, Repr

/-- The server together with everything it has done so far. -/
structure World where
  d : DelveServer
  trace : List Event
  deriving DecidableEq, Repr

/-- Appends one event to the trace. -/
def World.emit (w : World) (e : Event) : World :=
  { w with trace := w.trace ++ [e] }

/-- The function `New`. -/
def New (listener : ListenerId) (args : List String) : DelveServer :=
  { Listener := listener, Closed := false, Stdout := "", Stderr := "",
    srcConn := none, dstConn := none, args := args }

/-- The method `Close` of a connection held in a field: a nil field panics. -/
def connClose (c : Option ConnId) (w : World) : Option World :=
  match c with
  | none => none
  | some c => some (w.emit (.closeConn c))

/-! ## Session manager: `Accept`, `createProxyConnection`, `Close` -/

/-- What the outside world answers during one call of `Accept`. -/
structure AcceptEnv where
  accept : Except GoError ConnId
  listen : Except GoError ListenerId
  dial : Except GoError ConnId

/-- The method `createProxyConnection`: `net.Listen` and `net.DialTCP` answer
`env.listen` and `env.dial`; when a pair is recorded, both its connections are
closed before the two fields are assigned. -/
def createProxyConnection (env : AcceptEnv) (w : World) (src : ConnId) :
    Option (World × Except GoError ListenerId) :=
  match env.listen with
  | .error err => some (w, .error (.wrap "failed to create destination listener" err))
  | .ok listener =>
    let w := w.emit (.listen listener)
    match env.dial with
    | .error err => some (w, .error (.wrap "error dialing proxy connection" err))
    | .ok tcpConn =>
      let w := w.emit (.dial tcpConn)
      let closed : Option World :=
        match w.d.srcConn with
        | none => some w
        | some s => (connClose (some s) w).bind (fun w1 => connClose w1.d.dstConn w1)
      closed.bind fun w =>
        let w := { w with d := { w.d with srcConn := some src } }.emit (.setSrcConn src)
        let w := { w with d := { w.d with dstConn := some tcpConn } }.emit (.setDstConn tcpConn)
        some (w, .ok listener)

/-- The part of `Accept` that runs once `d.Listener.Accept()` has returned
`r`. -/
def acceptResume (env : AcceptEnv) (r : Except GoError ConnId) (w : World) :
    Option (World × Option GoError) :=
  match r with
  | .error err => some (w, some (.wrap "error accepting tcp connection" err))
  | .ok srcConn =>
    match createProxyConnection env w srcConn with
    | none => none
    | some (w, .error err) => some (w, some (.wrap "error creating proxy connection" err))
    | some (w, .ok destListener) => some (w.emit (.spawn destListener), none)

/-- The method `Accept`: the closed check, the call of the listener, and the
rest. -/
def Accept (env : AcceptEnv) (w : World) : Option (World × Option GoError) :=
  if w.d.Closed then some (w, some ErrServerClosed)
  else acceptResume env env.accept (w.emit (.listenerAccept w.d.Listener))

/-- The method `Close`. -/
def Close (w : World) : World :=
  { w with d := { w.d with Closed := true } }.emit (.closeListener w.d.Listener)

/-! ## Backend launcher: `buildBinary`, `runDelve` -/

/-- The struct `delveInstance`; the disconnect channel is represented by the
`disconnected` input of each relay iteration. -/
structure delveInstance where
  server : ServiceConfig
  filename : String
  deriving DecidableEq, Repr

/-- What a read on a connection delivers: the bytes the connection hands
over, or an error (`GoError.EOF` for end-of-stream). -/
inductive ReadOutcome where
  | data (bs : List Byte)
  | fail (err : GoError)
  deriving DecidableEq, Repr

/-- What the outside world answers during one iteration of the relay loop:
the two reads, the two writes (`none` is success), and for the final
`select` whether the context is done, whether the disconnect channel has
fired, and which ready case the runtime picks when both are. -/
structure Iter where
  readExt : ReadOutcome
  writeInt : Option GoError
  readInt : ReadOutcome
  writeExt : Option GoError
  ctxDone : Bool
  disconnected : Bool
  pick : Bool
  deriving DecidableEq, Repr

/-- What the outside world answers during one run of `startDelve`: the path
`gobuild.DefaultDebugBinaryPath` returns, the result of `gobuild.GoBuild`, the
result of `server.Run`, and the iterations of the relay loop that happen
before the worker is observed. -/
structure WorkerEnv where
  debugBinaryPath : String
  goBuild : Option GoError
  run : Option GoError
  iters : List Iter

/-- The method `buildBinary`. -/
def buildBinary (env : WorkerEnv) (args : List String) (w : World) :
    World × String × Option GoError :=
  let filename := env.debugBinaryPath
  (w.emit (.goBuild filename args), filename, env.goBuild)

/-- The method `runDelve`.  `d.args[0]` panics on an empty argument list. -/
def runDelve (env : WorkerEnv) (listener : ListenerId) (w : World) :
    Option (World × Except GoError delveInstance) :=
  match w.d.args[0]? with
  | none => none
  | some pkg =>
    match buildBinary env [pkg] w with
    | (w, _, some err) => some (w, .error (.wrap "error building binary" err))
    | (w, filename, none) =>
      let processArgs := ([] ++ w.d.args).set 0 filename
      let server : ServiceConfig :=
        { Listener := listener, ProcessArgs := processArgs, AcceptMulti := true,
          APIVersion := 2, Foreground := true, Packages := w.d.args,
          Stdout := w.d.Stdout, Stderr := w.d.Stderr }
      some (w.emit (.newServer server), .ok { server := server, filename := filename })

/-! ## Relay engine: `startDelve`, `OnConnectionClose`, `OnDelveFail` -/

/-- The method `OnConnectionClose`. -/
def OnConnectionClose (w : World) : Option World :=
  (connClose w.d.srcConn w).bind fun w => connClose w.d.dstConn w

/-- The method `OnDelveFail`. -/
def OnDelveFail (err : GoError) (w : World) : Option World :=
  connClose w.d.srcConn (w.emit (.logErr "error in delve thread" err))

/-- The size of the relay buffer, `64*1024`. -/
def chunkSize : Nat := 64 * 1024

/-- The call `buf.Read(p)` of a `bufio.Reader` over connection `c` with an
empty internal buffer and `len(p)` at least its size: one read of the
connection straight into `p`.  Returns the buffer, `n` and the error. -/
def bufioRead (c : Option ConnId) (p : List Byte) (o : ReadOutcome) (w : World) :
    Option (World × List Byte × Nat × Option GoError) :=
  match c with
  | none => none
  | some c =>
    match o with
    | .fail err => some (w.emit (.readFail c err), p, 0, some err)
    | .data bs =>
      let n := min bs.length p.length
      some (w.emit (.read c (bs.take n)), bs.take n ++ p.drop n, n, none)

/-- The call `conn.Write(b)` on a connection held in a field. -/
def connWrite (c : Option ConnId) (b : List Byte) (o : Option GoError) (w : World) :
    Option (World × Option GoError) :=
  match c with
  | none => none
  | some c =>
    match o with
    | some err => some (w.emit (.writeFail c err), some err)
    | none => some (w.emit (.write c b), none)

/-- The cases of the `select` that ends an iteration. -/
inductive SelectCase where
  | contextDone
  | disconnect
  | default
  deriving DecidableEq, Repr

/-- The `select` statement: a ready case is taken, `default` only when no
case is ready. -/
def selectCase (ctxDone disconnected pick : Bool) : SelectCase :=
  if ctxDone && disconnected then (if pick then .contextDone else .disconnect)
  else if ctxDone then .contextDone
  else if disconnected then .disconnect
  else .default

/-- How an iteration of the loop ends. -/
inductive Flow where
  | next
  | ret
  deriving DecidableEq, Repr

/-- What the worker's relay loop keeps in local variables. -/
structure Relay where
  destListener : ListenerId
  delve : delveInstance
  inputBuf : Option ConnId
  outputBuf : Option ConnId
  deriving DecidableEq, Repr

/-- One iteration of the `for` loop of `startDelve`. -/
def relayIter (it : Iter) (r : Relay) (w : World) : Option (World × Flow) :=
  let bytes : List Byte := List.replicate chunkSize 0
  match bufioRead r.inputBuf bytes it.readExt w with
  | none => none
  | some (w, _, _, some err) =>
    let w := if err ≠ .EOF then w.emit (.logErr "error reading input connection" err) else w
    (OnConnectionClose w).map fun w => (w, .ret)
  | some (w, bytes, n, none) =>
    match connWrite w.d.dstConn (bytes.take n) it.writeInt w with
    | none => none
    | some (w, some err) => (OnDelveFail err w).map fun w => (w, .ret)
    | some (w, none) =>
      match bufioRead r.outputBuf bytes it.readInt w with
      | none => none
      | some (w, _, _, some err) =>
        let w := if err ≠ .EOF then w.emit (.logErr "error reading output connection" err) else w
        (OnConnectionClose w).map fun w => (w, .ret)
      | some (w, bytes, n, none) =>
        match connWrite w.d.srcConn (bytes.take n) it.writeExt w with
        | none => none
        | some (w, some err) => (OnDelveFail err w).map fun w => (w, .ret)
        | some (w, none) =>
          match selectCase it.ctxDone it.disconnected it.pick with
          | .contextDone => some (w.emit (.log "stopping delve"), .ret)
          | .disconnect => some (w.emit (.log "disconnect"), .ret)
          | .default => some (w, .next)

/-- The first deferred function of `startDelve` (it runs last). -/
def deferredClose (destListener : ListenerId) (w : World) : Option World :=
  connClose w.d.srcConn (w.emit (.closeListener destListener))

/-- The deferred calls that run when the relay loop returns: `server.Stop`,
`gobuild.Remove`, then the first deferred function. -/
def relayCleanup (r : Relay) (w : World) : Option World :=
  deferredClose r.destListener
    ((w.emit (.serverStop r.delve.server.Listener)).emit (.remove r.delve.filename))

/-- Whether the worker has returned or is still inside its loop, waiting for
the next read. -/
inductive Status where
  | returned
  | running
  deriving DecidableEq, Repr

/-- The `for` loop of `startDelve` with the deferred calls of its `return`s,
driven by the iterations the outside world supplies. -/
def relayLoop : List Iter → Relay → World → Option (World × Status)
  | [], _, w => some (w, .running)
  | it :: rest, r, w =>
    match relayIter it r w with
    | none => none
    | some (w, .next) => relayLoop rest r w
    | some (w, .ret) => (relayCleanup r w).map fun w => (w, .returned)

/-- The part of `startDelve` before the loop.  The result is the finished
worker or the local variables of the loop. -/
def startDelveSetup (env : WorkerEnv) (destListener : ListenerId) (w : World) :
    Option (World × Option Relay) :=
  match runDelve env destListener w with
  | none => none
  | some (w, .error err) =>
    ((OnDelveFail err w).bind (deferredClose destListener)).map fun w => (w, none)
  | some (w, .ok delve) =>
    let w := w.emit (.serverRun delve.server.Listener)
    match env.run with
    | some err =>
      ((OnDelveFail (.wrap "error running delve" err) w).bind fun w =>
        deferredClose destListener (w.emit (.remove delve.filename))).map fun w => (w, none)
    | none =>
      some (w, some { destListener := destListener, delve := delve,
                      inputBuf := w.d.srcConn, outputBuf := w.d.dstConn })

/-- The method `startDelve`, the body of a session's worker. -/
def startDelve (env : WorkerEnv) (destListener : ListenerId) (w : World) :
    Option (World × Status) :=
  match startDelveSetup env destListener w with
  | none => none
  | some (w, none) => some (w, .returned)
  | some (w, some r) => relayLoop env.iters r w

/-! ## Reading a trace -/

/-- Whether `Close` has been called on connection `c`. -/
def connClosed (c : ConnId) (tr : List Event) : Bool :=
  decide (Event.closeConn c ∈ tr)

/-- The chunk of a successful read on connection `c`. -/
def Event.readChunk (c : ConnId) : Event → Option (List Byte)
  | .read c1 b => if c1 = c then some b else none
  | _ => none

/-- The chunk of a successful write on connection `c`. -/
def Event.writeChunk (c : ConnId) : Event → Option (List Byte)
  | .write c1 b => if c1 = c then some b else none
  | _ => none

/-- The chunks read from connection `c`, in order. -/
def chunksRead (c : ConnId) (tr : List Event) : List (List Byte) :=
  tr.filterMap (Event.readChunk c)

/-- The chunks written to connection `c`, in order. -/
def chunksWritten (c : ConnId) (tr : List Event) : List (List Byte) :=
  tr.filterMap (Event.writeChunk c)

/-- The bytes read from connection `c`, in order. -/
def bytesRead (c : ConnId) (tr : List Event) : List Byte :=
  (chunksRead c tr).flatten

/-- The bytes written to connection `c`, in order. -/
def bytesWritten (c : ConnId) (tr : List Event) : List Byte :=
  (chunksWritten c tr).flatten

/-- Whether a read delivers bytes. -/
def ReadOutcome.isData : ReadOutcome → Bool
  | .data _ => true
  | .fail _ => false

/-- Whether the two reads and the two writes of an iteration all succeed. -/
def Iter.succeeds (it : Iter) : Bool :=
  it.readExt.isData && it.writeInt.isNone && it.readInt.isData && it.writeExt.isNone

/-- Whether an iteration is the last one: a read or a write fails, or a
termination signal is present at the final check. -/
def Iter.stops (it : Iter) : Bool :=
  !it.succeeds || it.ctxDone || it.disconnected

/-- Whether an event is a read or a write on a connection, successful or
not. -/
def Event.isTransfer : Event → Bool
  | .read _ _ => true
  | .readFail _ _ => true
  | .write _ _ => true
  | .writeFail _ _ => true
  | _ => false

/-- Whether an event is a failed read or a failed write. -/
def Event.isFailure : Event → Bool
  | .readFail _ _ => true
  | .writeFail _ _ => true
  | _ => false

/-- Whether an event is an assignment to one of the connection fields. -/
def Event.isSet : Event → Bool
  | .setSrcConn _ => true
  | .setDstConn _ => true
  | _ => false

/-! ## The accept loop of `main` -/

/-- Why the loop of `main` returns. -/
inductive MainExit where
  | serverClosed
  | contextDone
  deriving DecidableEq, Repr

/-- One iteration of the `for` loop of `main`; `ctxDone` tells whether the
context is cancelled before the 50 ms timer fires. -/
def mainIter (env : AcceptEnv) (ctxDone : Bool) (w : World) : Option (World × Option MainExit) :=
  match Accept env w with
  | none => none
  | some (w, some err) =>
    if errorsIs err ErrServerClosed then
      some (w.emit (.log "server closed, exiting"), some .serverClosed)
    else
      let w := w.emit (.logErr "error accepting connection" err)
      if ctxDone then some (w.emit (.log "stopping server, context done"), some .contextDone)
      else some (w, none)
  | some (w, none) =>
    if ctxDone then some (w.emit (.log "stopping server, context done"), some .contextDone)
    else some (w, none)

/-! ## Runs of the whole server -/

/-- One step of a run of the server: a call of `Accept`, a call of `Close`,
a worker going from its start to its loop (or to its end), or a worker in its
loop going through some iterations. -/
inductive Op where
  | accept (env : AcceptEnv)
  | close
  | setup (env : WorkerEnv) (destListener : ListenerId)
  | relay (its : List Iter) (r : Relay)

/-- The world after one step; `none` when the step panics. -/
def Op.run : Op → World → Option World
  | .accept env, w => (Accept env w).map Prod.fst
  | .close, w => some (Close w)
  | .setup env l, w => (startDelveSetup env l w).map Prod.fst
  | .relay its r, w => (relayLoop its r w).map Prod.fst

/-- The world after a sequence of steps. -/
def runOps : List Op → World → Option World
  | [], w => some w
  | op :: ops, w => (op.run w).bind (runOps ops)

/-- The world in which `main` starts its loop: the server made by `New`, with
the two redirect paths set from the flags. -/
def initial (listener : ListenerId) (args : List String) (stdout stderr : String) : World :=
  { d := { New listener args with Stdout := stdout, Stderr := stderr }, trace := [] }

/-! ## Interleavings -/

/-- A call of `Accept` during which `Close` runs while `Accept` waits in
`d.Listener.Accept()`: the closed check, the call of the listener, then
`Close`, then the rest of `Accept` with the listener's answer `r`. -/
def AcceptInterrupted (env : AcceptEnv) (r : Except GoError ConnId) (w : World) :
    Option (World × Option GoError) :=
  if w.d.Closed then some (w, some ErrServerClosed)
  else acceptResume env r (Close (w.emit (.listenerAccept w.d.Listener)))

/-- The first part of an iteration of the `for` loop of `startDelve`: the read
from the external connection, the write to the internal one and the read from
the internal one.  The result is the finished iteration (`none`, the loop
returns) or the buffer and the count `n` of the pending write. -/
def relayIterHead (it : Iter) (r : Relay) (w : World) :
    Option (World × Option (List Byte × Nat)) :=
  let bytes : List Byte := List.replicate chunkSize 0
  match bufioRead r.inputBuf bytes it.readExt w with
  | none => none
  | some (w, _, _, some err) =>
    let w := if err ≠ .EOF then w.emit (.logErr "error reading input connection" err) else w
    (OnConnectionClose w).map fun w => (w, none)
  | some (w, bytes, n, none) =>
    match connWrite w.d.dstConn (bytes.take n) it.writeInt w with
    | none => none
    | some (w, some err) => (OnDelveFail err w).map fun w => (w, none)
    | some (w, none) =>
      match bufioRead r.outputBuf bytes it.readInt w with
      | none => none
      | some (w, _, _, some err) =>
        let w := if err ≠ .EOF then w.emit (.logErr "error reading output connection" err) else w
        (OnConnectionClose w).map fun w => (w, none)
      | some (w, bytes, n, none) => some (w, some (bytes, n))

/-- The rest of the iteration: the write of `bytes[:n]` to the external
connection and the `select`. -/
def relayIterTail (it : Iter) (bytes : List Byte) (n : Nat) (w : World) :
    Option (World × Flow) :=
  match connWrite w.d.srcConn (bytes.take n) it.writeExt w with
  | none => none
  | some (w, some err) => (OnDelveFail err w).map fun w => (w, .ret)
  | some (w, none) =>
    match selectCase it.ctxDone it.disconnected it.pick with
    | .contextDone => some (w.emit (.log "stopping delve"), .ret)
    | .disconnect => some (w.emit (.log "disconnect"), .ret)
    | .default => some (w, .next)

/-- An iteration of a worker during which the server accepts a client between
the worker's read from the internal connection and its write to the external
one. -/
def relayIterSuperseded (it : Iter) (env : AcceptEnv) (r : Relay) (w : World) :
    Option (World × Flow) :=
  match relayIterHead it r w with
  | none => none
  | some (w, none) => some (w, .ret)
  | some (w, some (bytes, n)) =>
    match Accept env w with
    | none => none
    | some (w, _) => relayIterTail it bytes n w

/-! ## Frame conditions and invariants of a run -/

/-- The effect of worker code on the world: the server's fields are left as
they are and the trace grows by events that assign no connection field. -/
def WorkerStep (w w1 : World) : Prop :=
  w1.d = w.d ∧ ∃ evs, w1.trace = w.trace ++ evs ∧ ∀ e ∈ evs, e.isSet = false

/-- The effect of code that leaves the recorded pair alone. -/
def KeepsPair (w w1 : World) : Prop :=
  w1.d.srcConn = w.d.srcConn ∧ w1.d.dstConn = w.d.dstConn ∧
    ∃ evs, w1.trace = w.trace ++ evs ∧ ∀ e ∈ evs, e.isSet = false

/-- Connection `c` has been stored in one of the connection fields. -/
def recorded (c : ConnId) (tr : List Event) : Prop :=
  Event.setSrcConn c ∈ tr ∨ Event.setDstConn c ∈ tr

instance (c : ConnId) (tr : List Event) : Decidable (recorded c tr) :=
  inferInstanceAs (Decidable (Event.setSrcConn c ∈ tr ∨ Event.setDstConn c ∈ tr))

/-- The calls of `Close` that `createProxyConnection` makes on the previous
pair. -/
def prevCloses (d : DelveServer) : List Event :=
  match d.srcConn, d.dstConn with
  | some s0, some t0 => [.closeConn s0, .closeConn t0]
  | _, _ => []

/-- The recorded pair and the trace agree: the two fields are set together,
nothing has been recorded while they are nil, and every connection that has
been recorded is one of the current pair or has been closed. -/
structure PairInv (w : World) : Prop where
  both : w.d.srcConn ≠ none → w.d.dstConn ≠ none
  fresh : w.d.srcConn = none → ∀ e ∈ w.trace, e.isSet = false
  closed : ∀ c, recorded c w.trace →
    w.d.srcConn = some c ∨ w.d.dstConn = some c ∨ Event.closeConn c ∈ w.trace

/-- The pair `(s, t)` a worker reads from is the recorded pair or has been
closed: each of the two connections is the one held in its field, or `Close`
has been called on it. -/
def OwnedOrClosed (s t : ConnId) (w : World) : Prop :=
  (∃ s1, w.d.srcConn = some s1 ∧ (s = s1 ∨ connClosed s w.trace = true)) ∧
  (∃ t1, w.d.dstConn = some t1 ∧ (t = t1 ∨ connClosed t w.trace = true))

/-! ## The events of a worker, as lists -/

/-- The relay buffer `p` after a read that delivers `bs` into it. -/
def readInto (p bs : List Byte) : List Byte :=
  bs.take (min bs.length p.length) ++ p.drop (min bs.length p.length)

/-- The four transfers of an iteration in which both reads and both writes
succeed. -/
def transferEvents (s t s1 t1 : ConnId) (b1 b2 : List Byte) : List Event :=
  [.read s (b1.take chunkSize), .write t1 (b1.take chunkSize),
    .read t (b2.take chunkSize), .write s1 (b2.take chunkSize)]

/-- The events of the `select` at the end of an iteration. -/
def selectEvents : SelectCase → List Event × Flow
  | .contextDone => ([.log "stopping delve"], .ret)
  | .disconnect => ([.log "disconnect"], .ret)
  | .default => ([], .next)

/-- The events of one iteration of the relay loop and how it ends, for a
worker that reads from `s` and `t` while the connection fields hold `s1` and
`t1`. -/
def iterEvents (s t s1 t1 : ConnId) (it : Iter) : List Event × Flow :=
  match it.readExt with
  | .fail err =>
    ([.readFail s err] ++
      (if err ≠ .EOF then [.logErr "error reading input connection" err] else []) ++
      [.closeConn s1, .closeConn t1], .ret)
  | .data b1 =>
    match it.writeInt with
    | some err =>
      ([.read s (b1.take chunkSize), .writeFail t1 err, .logErr "error in delve thread" err,
        .closeConn s1], .ret)
    | none =>
      match it.readInt with
      | .fail err =>
        ([.read s (b1.take chunkSize), .write t1 (b1.take chunkSize), .readFail t err] ++
          (if err ≠ .EOF then [.logErr "error reading output connection" err] else []) ++
          [.closeConn s1, .closeConn t1], .ret)
      | .data b2 =>
        match it.writeExt with
        | some err =>
          ([.read s (b1.take chunkSize), .write t1 (b1.take chunkSize),
            .read t (b2.take chunkSize), .writeFail s1 err,
            .logErr "error in delve thread" err, .closeConn s1], .ret)
        | none =>
          match selectCase it.ctxDone it.disconnected it.pick with
          | .contextDone =>
            ([.read s (b1.take chunkSize), .write t1 (b1.take chunkSize),
              .read t (b2.take chunkSize), .write s1 (b2.take chunkSize),
              .log "stopping delve"], .ret)
          | .disconnect =>
            ([.read s (b1.take chunkSize), .write t1 (b1.take chunkSize),
              .read t (b2.take chunkSize), .write s1 (b2.take chunkSize),
              .log "disconnect"], .ret)
          | .default =>
            ([.read s (b1.take chunkSize), .write t1 (b1.take chunkSize),
              .read t (b2.take chunkSize), .write s1 (b2.take chunkSize)], .next)

/-- The events of the deferred calls that run when the relay loop returns. -/
def cleanupEvents (r : Relay) (s1 : ConnId) : List Event :=
  [.serverStop r.delve.server.Listener, .remove r.delve.filename,
    .closeListener r.destListener, .closeConn s1]

/-- The events of the relay loop and its status, for a worker that reads from
`s` and `t` while the connection fields hold `s1` and `t1`. -/
def loopEvents (r : Relay) (s t s1 t1 : ConnId) : List Iter → List Event × Status
  | [] => ([], .running)
  | it :: rest =>
    match iterEvents s t s1 t1 it with
    | (evs, .next) =>
      (evs ++ (loopEvents r s t s1 t1 rest).1, (loopEvents r s t s1 t1 rest).2)
    | (evs, .ret) => (evs ++ cleanupEvents r s1, .returned)

/-- The configuration `runDelve` gives the backend. -/
def backendConfig (env : WorkerEnv) (l : ListenerId) (d : DelveServer) : ServiceConfig :=
  { Listener := l, ProcessArgs := ([] ++ d.args).set 0 env.debugBinaryPath,
    AcceptMulti := true, APIVersion := 2, Foreground := true, Packages := d.args,
    Stdout := d.Stdout, Stderr := d.Stderr }

/-- The local variables of the relay loop of a worker started in world `w`. -/
def relayOf (env : WorkerEnv) (l : ListenerId) (d : DelveServer) : Relay :=
  { destListener := l,
    delve := { server := backendConfig env l d, filename := env.debugBinaryPath },
    inputBuf := d.srcConn, outputBuf := d.dstConn }

/-- The chunk the read from the external connection takes in an iteration. -/
def Iter.extChunk (it : Iter) : List Byte :=
  match it.readExt with
  | .data b => b.take chunkSize
  | .fail _ => []

/-- The chunk the read from the internal connection takes in an iteration. -/
def Iter.intChunk (it : Iter) : List Byte :=
  match it.readInt with
  | .data b => b.take chunkSize
  | .fail _ => []

/-- The four transfers of an iteration of a worker whose pair `(s, t)` is the
recorded one. -/
def Iter.transfers (s t : ConnId) (it : Iter) : List Event :=
  [.read s it.extChunk, .write t it.extChunk, .read t it.intChunk, .write s it.intChunk]

/-! ## Sample runs -/

/-- The answers for the accept of client A. -/
def acceptA : AcceptEnv := ⟨.ok 10, .ok 1, .ok 11⟩

/-- The answers for the accept of client B. -/
def acceptB : AcceptEnv := ⟨.ok 20, .ok 2, .ok 21⟩

/-- A worker whose build and backend start succeed. -/
def workerOk (its : List Iter) : WorkerEnv := ⟨"/tmp/__debug_bin", none, none, its⟩

/-- An iteration that relays "ping" one way and "pong" the other. -/
def pingPong : Iter :=
  ⟨.data [112, 105, 110, 103], none, .data [112, 111, 110, 103], none, false, false, false⟩

/-- An iteration whose first read fails because the connection has been
closed locally. -/
def readClosed : Iter := { pingPong with readExt := .fail .netClosed }

/-- The world after client A has been accepted by a fresh server: the pair
(10, 11) is recorded and a worker has been started on listener 1. -/
def sessionA : World :=
  { d := { New 0 ["./cmd/app", "-v"] with srcConn := some 10, dstConn := some 11 },
    trace := [.listenerAccept 0, .listen 1, .dial 11, .setSrcConn 10, .setDstConn 11,
      .spawn 1] }

/-- The world once the worker of session A has built the binary, started the
backend and entered its relay loop. -/
def runningA : World :=
  { d := sessionA.d,
    trace := sessionA.trace ++
      [.goBuild "/tmp/__debug_bin" ["./cmd/app"],
        .newServer (backendConfig (workerOk []) 1 sessionA.d), .serverRun 1] }

/-- The local variables of the relay loop of the worker of session A. -/
def relayA : Relay := relayOf (workerOk []) 1 sessionA.d

/-- The world after client B has been accepted while the worker of session A
is in its loop: the pair (10, 11) has been closed and (20, 21) is recorded. -/
def sessionB : World :=
  { d := { sessionA.d with srcConn := some 20, dstConn := some 21 },
    trace := runningA.trace ++
      [.listenerAccept 0, .listen 2, .dial 21, .closeConn 10, .closeConn 11,
        .setSrcConn 20, .setDstConn 21, .spawn 2] }

/-- A world in which `Close` has been called, a connection has been refused and
`Close` has been called again. -/
def closedWorld : World :=
  { d := { New 0 ["./cmd/app"] with Closed := true },
    trace := [.closeListener 0, .closeListener 0] }

/-- The world after the iteration of the worker of session A during which
client B is accepted: "ping" went from 10 to 11, "pong" was read from 11 and
written to 20. -/
def crossed : World :=
  { d := sessionB.d,
    trace := runningA.trace ++
      [.read 10 [112, 105, 110, 103], .write 11 [112, 105, 110, 103],
        .read 11 [112, 111, 110, 103],
        .listenerAccept 0, .listen 2, .dial 21, .closeConn 10, .closeConn 11,
        .setSrcConn 20, .setDstConn 21, .spawn 2,
        .write 20 [112, 111, 110, 103], .log "disconnect"] }

/-- The world after the worker of session A has then returned. -/
def crossedEnd : World :=
  { d := sessionB.d,
    trace := crossed.trace ++
      [.serverStop 1, .remove "/tmp/__debug_bin", .closeListener 1, .closeConn 20] }

/-! ## Lemmas -/

theorem WorkerStep.refl (w : World) : WorkerStep w w :=
  ⟨rfl, [], by simp, by simp⟩

theorem WorkerStep.trans {a b c : World} (h1 : WorkerStep a b) (h2 : WorkerStep b c) :
    WorkerStep a c := by
  obtain ⟨hd1, e1, ht1, hs1⟩ := h1
  obtain ⟨hd2, e2, ht2, hs2⟩ := h2
  refine ⟨hd2.trans hd1, e1 ++ e2, by rw [ht2, ht1, List.append_assoc], ?_⟩
  intro e he
  rcases List.mem_append.mp he with h | h
  · exact hs1 e h
  · exact hs2 e h

theorem WorkerStep.emit (w : World) (e : Event) (he : e.isSet = false) :
    WorkerStep w (w.emit e) :=
  ⟨rfl, [e], rfl, by simpa using he⟩

theorem connClose_step {c : Option ConnId} {w w1 : World} (h : connClose c w = some w1) :
    WorkerStep w w1 := by
  cases c with
  | none => simp [connClose] at h
  | some c =>
    simp only [connClose, Option.some.injEq] at h
    subst h
    exact WorkerStep.emit w _ (by rfl)

theorem OnConnectionClose_step {w w1 : World} (h : OnConnectionClose w = some w1) :
    WorkerStep w w1 := by
  unfold OnConnectionClose at h
  obtain ⟨w2, h2, h3⟩ := Option.bind_eq_some.mp h
  exact (connClose_step h2).trans (connClose_step h3)

theorem OnDelveFail_step {err : GoError} {w w1 : World} (h : OnDelveFail err w = some w1) :
    WorkerStep w w1 :=
  (WorkerStep.emit w _ (by rfl)).trans (connClose_step h)

theorem bufioRead_step {c : Option ConnId} {p : List Byte} {o : ReadOutcome} {w w1 : World}
    {p1 : List Byte} {n : Nat} {e : Option GoError}
    (h : bufioRead c p o w = some (w1, p1, n, e)) : WorkerStep w w1 := by
  cases c with
  | none => simp [bufioRead] at h
  | some c =>
    cases o with
    | fail err =>
      simp only [bufioRead, Option.some.injEq, Prod.mk.injEq] at h
      obtain ⟨rfl, -⟩ := h
      exact WorkerStep.emit w _ (by rfl)
    | data bs =>
      simp only [bufioRead, Option.some.injEq, Prod.mk.injEq] at h
      obtain ⟨rfl, -⟩ := h
      exact WorkerStep.emit w _ (by rfl)

theorem connWrite_step {c : Option ConnId} {b : List Byte} {o : Option GoError} {w w1 : World}
    {e : Option GoError} (h : connWrite c b o w = some (w1, e)) : WorkerStep w w1 := by
  cases c with
  | none => simp [connWrite] at h
  | some c =>
    cases o with
    | some err =>
      simp only [connWrite, Option.some.injEq, Prod.mk.injEq] at h
      obtain ⟨rfl, -⟩ := h
      exact WorkerStep.emit w _ (by rfl)
    | none =>
      simp only [connWrite, Option.some.injEq, Prod.mk.injEq] at h
      obtain ⟨rfl, -⟩ := h
      exact WorkerStep.emit w _ (by rfl)

theorem deferredClose_step {l : ListenerId} {w w1 : World} (h : deferredClose l w = some w1) :
    WorkerStep w w1 :=
  (WorkerStep.emit w _ (by rfl)).trans (connClose_step h)

theorem relayCleanup_step {r : Relay} {w w1 : World} (h : relayCleanup r w = some w1) :
    WorkerStep w w1 :=
  ((WorkerStep.emit w _ (by rfl)).trans (WorkerStep.emit _ _ (by rfl))).trans (deferredClose_step h)

theorem relayIter_step {it : Iter} {r : Relay} {w w1 : World} {f : Flow}
    (h : relayIter it r w = some (w1, f)) : WorkerStep w w1 := by
  unfold relayIter at h
  rcases h1 : bufioRead r.inputBuf (List.replicate chunkSize 0) it.readExt w with
    _ | ⟨w2, bytes, n, _ | err⟩
  · simp [h1] at h
  · have s1 := bufioRead_step h1
    simp only [h1] at h
    rcases h2 : connWrite w2.d.dstConn (List.take n bytes) it.writeInt w2 with
      _ | ⟨w3, _ | err⟩
    · simp [h2] at h
    · have s2 := connWrite_step h2
      simp only [h2] at h
      rcases h3 : bufioRead r.outputBuf bytes it.readInt w3 with
        _ | ⟨w4, bytes2, n2, _ | err⟩
      · simp [h3] at h
      · have s3 := bufioRead_step h3
        simp only [h3] at h
        rcases h4 : connWrite w4.d.srcConn (List.take n2 bytes2) it.writeExt w4 with
          _ | ⟨w5, _ | err⟩
        · simp [h4] at h
        · have s4 := connWrite_step h4
          have s := s1.trans (s2.trans (s3.trans s4))
          simp only [h4] at h
          cases h5 : selectCase it.ctxDone it.disconnected it.pick <;>
            simp only [h5, Option.some.injEq, Prod.mk.injEq] at h <;>
            obtain ⟨rfl, -⟩ := h
          · exact s.trans (WorkerStep.emit _ _ (by rfl))
          · exact s.trans (WorkerStep.emit _ _ (by rfl))
          · exact s
        · have s4 := connWrite_step h4
          simp only [h4] at h
          obtain ⟨w6, h5, h6⟩ := Option.map_eq_some'.mp h
          simp only [Prod.mk.injEq] at h6
          obtain ⟨rfl, -⟩ := h6
          exact s1.trans (s2.trans (s3.trans (s4.trans (OnDelveFail_step h5))))
      · have s3 := bufioRead_step h3
        simp only [h3] at h
        obtain ⟨w5, h5, h6⟩ := Option.map_eq_some'.mp h
        simp only [Prod.mk.injEq] at h6
        obtain ⟨rfl, -⟩ := h6
        refine s1.trans (s2.trans (s3.trans (WorkerStep.trans ?_ (OnConnectionClose_step h5))))
        split
        · exact WorkerStep.emit _ _ (by rfl)
        · exact WorkerStep.refl _
    · have s2 := connWrite_step h2
      simp only [h2] at h
      obtain ⟨w4, h5, h6⟩ := Option.map_eq_some'.mp h
      simp only [Prod.mk.injEq] at h6
      obtain ⟨rfl, -⟩ := h6
      exact s1.trans (s2.trans (OnDelveFail_step h5))
  · have s1 := bufioRead_step h1
    simp only [h1] at h
    obtain ⟨w3, h5, h6⟩ := Option.map_eq_some'.mp h
    simp only [Prod.mk.injEq] at h6
    obtain ⟨rfl, -⟩ := h6
    refine s1.trans (WorkerStep.trans ?_ (OnConnectionClose_step h5))
    split
    · exact WorkerStep.emit _ _ (by rfl)
    · exact WorkerStep.refl _

theorem relayLoop_step {its : List Iter} {r : Relay} {w w1 : World} {st : Status}
    (h : relayLoop its r w = some (w1, st)) : WorkerStep w w1 := by
  induction its generalizing w with
  | nil =>
    simp only [relayLoop, Option.some.injEq, Prod.mk.injEq] at h
    obtain ⟨rfl, -⟩ := h
    exact WorkerStep.refl _
  | cons it rest ih =>
    unfold relayLoop at h
    split at h
    · simp at h
    · rename_i w2 h1
      exact (relayIter_step h1).trans (ih h)
    · rename_i w2 h1
      obtain ⟨w3, h3, h4⟩ := Option.map_eq_some'.mp h
      simp only [Prod.mk.injEq] at h4
      obtain ⟨rfl, -⟩ := h4
      exact (relayIter_step h1).trans (relayCleanup_step h3)

theorem runDelve_step {env : WorkerEnv} {l : ListenerId} {w w1 : World}
    {res : Except GoError delveInstance} (h : runDelve env l w = some (w1, res)) :
    WorkerStep w w1 := by
  unfold runDelve at h
  cases ha : w.d.args[0]? with
  | none => simp [ha] at h
  | some pkg =>
    simp only [ha, buildBinary] at h
    cases hb : env.goBuild with
    | some err =>
      simp only [hb, Option.some.injEq, Prod.mk.injEq] at h
      obtain ⟨rfl, -⟩ := h
      exact WorkerStep.emit _ _ (by rfl)
    | none =>
      simp only [hb, Option.some.injEq, Prod.mk.injEq] at h
      obtain ⟨rfl, -⟩ := h
      exact (WorkerStep.emit _ _ (by rfl)).trans (WorkerStep.emit _ _ (by rfl))

theorem startDelveSetup_step {env : WorkerEnv} {l : ListenerId} {w w1 : World}
    {r : Option Relay} (h : startDelveSetup env l w = some (w1, r)) : WorkerStep w w1 := by
  unfold startDelveSetup at h
  rcases h1 : runDelve env l w with _ | ⟨w2, err | delve⟩
  · simp [h1] at h
  · have s1 := runDelve_step h1
    simp only [h1] at h
    obtain ⟨w3, h3, h4⟩ := Option.map_eq_some'.mp h
    simp only [Prod.mk.injEq] at h4
    obtain ⟨rfl, -⟩ := h4
    obtain ⟨w4, h5, h6⟩ := Option.bind_eq_some.mp h3
    exact s1.trans ((OnDelveFail_step h5).trans (deferredClose_step h6))
  · have s1 := runDelve_step h1
    simp only [h1] at h
    cases hr : env.run with
    | some err =>
      simp only [hr] at h
      obtain ⟨w3, h3, h4⟩ := Option.map_eq_some'.mp h
      simp only [Prod.mk.injEq] at h4
      obtain ⟨rfl, -⟩ := h4
      obtain ⟨w4, h5, h6⟩ := Option.bind_eq_some.mp h3
      exact s1.trans ((WorkerStep.emit _ _ (by rfl)).trans
        ((OnDelveFail_step h5).trans
          ((WorkerStep.emit _ _ (by rfl)).trans (deferredClose_step h6))))
    | none =>
      simp only [hr, Option.some.injEq, Prod.mk.injEq] at h
      obtain ⟨rfl, -⟩ := h
      exact s1.trans (WorkerStep.emit _ _ (by rfl))

theorem Accept_closed (env : AcceptEnv) (w : World) (h : w.d.Closed = true) :
    Accept env w = some (w, some ErrServerClosed) := by
  simp [Accept, h]

theorem Op_run_closed {op : Op} {w w1 : World} (h : op.run w = some w1)
    (hc : w.d.Closed = true) : w1.d.Closed = true := by
  cases op with
  | accept env =>
    simp only [Op.run, Accept_closed env w hc, Option.map_some', Option.some.injEq] at h
    subst h
    exact hc
  | close =>
    simp only [Op.run, Option.some.injEq] at h
    subst h
    rfl
  | setup env l =>
    obtain ⟨⟨w2, r⟩, h2, h3⟩ := Option.map_eq_some'.mp h
    simp only at h3
    subst h3
    rw [(startDelveSetup_step h2).1]
    exact hc
  | relay its r =>
    obtain ⟨⟨w2, st⟩, h2, h3⟩ := Option.map_eq_some'.mp h
    simp only at h3
    subst h3
    rw [(relayLoop_step h2).1]
    exact hc

theorem runOps_closed {ops : List Op} {w w1 : World} (h : runOps ops w = some w1)
    (hc : w.d.Closed = true) : w1.d.Closed = true := by
  induction ops generalizing w with
  | nil =>
    simp only [runOps, Option.some.injEq] at h
    subst h
    exact hc
  | cons op ops ih =>
    obtain ⟨w2, h2, h3⟩ := Option.bind_eq_some.mp h
    exact ih h3 (Op_run_closed h2 hc)

theorem WorkerStep.keepsPair {w w1 : World} (h : WorkerStep w w1) : KeepsPair w w1 :=
  ⟨by rw [h.1], by rw [h.1], h.2⟩

theorem Accept_success (env : AcceptEnv) (w : World) (s t : ConnId) (l : ListenerId)
    (hc : w.d.Closed = false) (ha : env.accept = .ok s) (hl : env.listen = .ok l)
    (hd : env.dial = .ok t) (hp : w.d.srcConn ≠ none → w.d.dstConn ≠ none) :
    Accept env w = some
      ({ d := { w.d with srcConn := some s, dstConn := some t },
         trace := w.trace ++ ([.listenerAccept w.d.Listener, .listen l, .dial t] ++
           prevCloses w.d ++ [.setSrcConn s, .setDstConn t, .spawn l]) }, none) := by
  rcases w with ⟨d, tr⟩
  simp only at hc hp
  rcases hs : d.srcConn with _ | s0
  · simp [Accept, acceptResume, createProxyConnection, World.emit, prevCloses, hc, ha, hl, hd, hs]
  · rcases ht : d.dstConn with _ | t0
    · exact absurd ht (hp (by simp [hs]))
    · simp [Accept, acceptResume, createProxyConnection, connClose, World.emit, prevCloses,
        hc, ha, hl, hd, hs, ht]

theorem Accept_cases {env : AcceptEnv} {w w1 : World} {err : Option GoError}
    (h : Accept env w = some (w1, err)) :
    (err ≠ none ∧ KeepsPair w w1) ∨
    (err = none ∧ ∃ s t l, w.d.Closed = false ∧ env.accept = .ok s ∧ env.listen = .ok l ∧
      env.dial = .ok t ∧ (w.d.srcConn ≠ none → w.d.dstConn ≠ none)) := by
  unfold Accept at h
  by_cases hc : w.d.Closed = true
  · simp only [hc, if_true, Option.some.injEq, Prod.mk.injEq] at h
    obtain ⟨rfl, rfl⟩ := h
    exact Or.inl ⟨by simp, rfl, rfl, [], by simp, by simp⟩
  · simp only [hc, Bool.false_eq_true, if_false] at h
    unfold acceptResume at h
    rcases ha : env.accept with e | s
    · simp only [ha, Option.some.injEq, Prod.mk.injEq] at h
      obtain ⟨rfl, rfl⟩ := h
      exact Or.inl ⟨by simp, rfl, rfl, [_], rfl, by simp [Event.isSet]⟩
    · simp only [ha] at h
      unfold createProxyConnection at h
      rcases hl : env.listen with e | l
      · simp only [hl, Option.some.injEq, Prod.mk.injEq] at h
        obtain ⟨rfl, rfl⟩ := h
        exact Or.inl ⟨by simp, rfl, rfl, [_], rfl, by simp [Event.isSet]⟩
      · simp only [hl] at h
        rcases hd : env.dial with e | t
        · simp only [hd, Option.some.injEq, Prod.mk.injEq] at h
          obtain ⟨rfl, rfl⟩ := h
          exact Or.inl ⟨by simp, rfl, rfl, [.listenerAccept w.d.Listener, .listen l],
            by simp [World.emit], by simp [Event.isSet]⟩
        · refine Or.inr ⟨?_, s, t, l, by simpa using hc, rfl, rfl, rfl, ?_⟩
          · rcases hs : w.d.srcConn with _ | s0
            · simp [hd, World.emit, hs] at h
              exact h.2.symm
            · rcases ht : w.d.dstConn with _ | t0
              · simp [hd, World.emit, hs, ht, connClose] at h
              · simp [hd, World.emit, hs, ht, connClose] at h
                exact h.2.symm
          · intro hs ht
            rcases hs2 : w.d.srcConn with _ | s0
            · exact hs hs2
            · simp [hd, World.emit, hs2, ht, connClose] at h

theorem PairInv.start (l : ListenerId) (args : List String) (stdout stderr : String) :
    PairInv (initial l args stdout stderr) :=
  ⟨by simp [initial, New], by simp [initial], by simp [initial, recorded]⟩

theorem recorded_append_of_noSet {c : ConnId} {tr evs : List Event}
    (hn : ∀ e ∈ evs, e.isSet = false) (h : recorded c (tr ++ evs)) : recorded c tr := by
  rcases h with h | h
  · rcases List.mem_append.mp h with h | h
    · exact Or.inl h
    · exact absurd (hn _ h) (by simp [Event.isSet])
  · rcases List.mem_append.mp h with h | h
    · exact Or.inr h
    · exact absurd (hn _ h) (by simp [Event.isSet])

theorem PairInv.keep {w w1 : World} (hi : PairInv w) (h : KeepsPair w w1) : PairInv w1 := by
  obtain ⟨hs, ht, evs, htr, hn⟩ := h
  refine ⟨?_, ?_, ?_⟩
  · rw [hs, ht]
    exact hi.both
  · intro h0 e he
    rw [htr] at he
    rcases List.mem_append.mp he with he | he
    · exact hi.fresh (hs ▸ h0) e he
    · exact hn e he
  · intro c hc
    rw [htr] at hc
    rcases hi.closed c (recorded_append_of_noSet hn hc) with h1 | h1 | h1
    · exact Or.inl (hs ▸ h1)
    · exact Or.inr (Or.inl (ht ▸ h1))
    · exact Or.inr (Or.inr (by rw [htr]; exact List.mem_append_left _ h1))

theorem PairInv.afterAccept {w : World} (hi : PairInv w) (s t : ConnId) (l : ListenerId) :
    PairInv { d := { w.d with srcConn := some s, dstConn := some t },
              trace := w.trace ++ ([.listenerAccept w.d.Listener, .listen l, .dial t] ++
                prevCloses w.d ++ [.setSrcConn s, .setDstConn t, .spawn l]) } := by
  refine ⟨by simp, by simp, ?_⟩
  intro c hc
  simp only [recorded, List.mem_append, List.mem_cons, List.mem_singleton, List.not_mem_nil,
    or_false, reduceCtorEq, false_or, Event.setSrcConn.injEq, Event.setDstConn.injEq] at hc
  simp only [Option.some.injEq]
  have hprev : ∀ e ∈ prevCloses w.d, e.isSet = false := by
    intro e he
    unfold prevCloses at he
    split at he
    · simp only [List.mem_cons, List.mem_singleton, List.not_mem_nil, or_false] at he
      rcases he with rfl | rfl <;> rfl
    · simp at he
  have hold : recorded c w.trace → s = c ∨ t = c ∨
      Event.closeConn c ∈ w.trace ++ ([.listenerAccept w.d.Listener, .listen l, .dial t] ++
                prevCloses w.d ++ [.setSrcConn s, .setDstConn t, .spawn l]) := by
    intro hr
    rcases hs : w.d.srcConn with _ | s0
    · rcases hr with hr | hr
      · exact absurd (hi.fresh hs _ hr) (by simp [Event.isSet])
      · exact absurd (hi.fresh hs _ hr) (by simp [Event.isSet])
    · rcases ht : w.d.dstConn with _ | t0
      · exact absurd ht (hi.both (by simp [hs]))
      · right; right
        rcases hi.closed c hr with h1 | h1 | h1
        · rw [hs] at h1
          simp only [Option.some.injEq] at h1
          subst h1
          simp [prevCloses, hs, ht]
        · rw [ht] at h1
          simp only [Option.some.injEq] at h1
          subst h1
          simp [prevCloses, hs, ht]
        · exact List.mem_append_left _ h1
  rcases hc with hc | hc
  · rcases hc with hc | hc | hc
    · exact hold (Or.inl hc)
    · exact absurd (hprev _ hc) (by simp [Event.isSet])
    · exact Or.inl hc.symm
  · rcases hc with hc | hc | hc
    · exact hold (Or.inr hc)
    · exact absurd (hprev _ hc) (by simp [Event.isSet])
    · exact Or.inr (Or.inl hc.symm)

theorem Close_keepsPair (w : World) : KeepsPair w (Close w) :=
  ⟨rfl, rfl, [_], rfl, by simp [Event.isSet]⟩

theorem PairInv.step {op : Op} {w w1 : World} (hi : PairInv w) (h : op.run w = some w1) :
    PairInv w1 := by
  cases op with
  | accept env =>
    obtain ⟨⟨w2, err⟩, h2, h3⟩ := Option.map_eq_some'.mp h
    simp only at h3
    subst h3
    rcases Accept_cases h2 with ⟨-, hk⟩ | ⟨rfl, s, t, l, hc, ha, hl, hd, hp⟩
    · exact hi.keep hk
    · rw [Accept_success env w s t l hc ha hl hd hp] at h2
      simp only [Option.some.injEq, Prod.mk.injEq, and_true] at h2
      subst h2
      exact hi.afterAccept s t l
  | close =>
    simp only [Op.run, Option.some.injEq] at h
    subst h
    exact hi.keep (Close_keepsPair w)
  | setup env l =>
    obtain ⟨⟨w2, r⟩, h2, h3⟩ := Option.map_eq_some'.mp h
    simp only at h3
    subst h3
    exact hi.keep (startDelveSetup_step h2).keepsPair
  | relay its r =>
    obtain ⟨⟨w2, st⟩, h2, h3⟩ := Option.map_eq_some'.mp h
    simp only at h3
    subst h3
    exact hi.keep (relayLoop_step h2).keepsPair

theorem PairInv.reach {ops : List Op} {w w1 : World} (hi : PairInv w)
    (h : runOps ops w = some w1) : PairInv w1 := by
  induction ops generalizing w with
  | nil =>
    simp only [runOps, Option.some.injEq] at h
    subst h
    exact hi
  | cons op ops ih =>
    obtain ⟨w2, h2, h3⟩ := Option.bind_eq_some.mp h
    exact ih (hi.step h2) h3

theorem accept_eq_resume (env : AcceptEnv) (w : World) (h : w.d.Closed = false) :
    Accept env w = acceptResume env env.accept (w.emit (.listenerAccept w.d.Listener)) := by
  simp [Accept, h]

theorem take_min_length (bs : List Byte) (k : Nat) :
    bs.take (min bs.length k) = bs.take k := by
  rcases Nat.le_total bs.length k with h | h
  · rw [Nat.min_eq_left h, List.take_of_length_le (le_refl _), List.take_of_length_le h]
  · rw [Nat.min_eq_right h]

theorem readInto_take (p bs : List Byte) :
    (readInto p bs).take (min bs.length p.length) = bs.take p.length := by
  rw [readInto, List.take_left' (by simp), take_min_length]

theorem readInto_length (p bs : List Byte) : (readInto p bs).length = p.length := by
  simp only [readInto, List.length_append, List.length_take, List.length_drop]
  omega

theorem bufioRead_data (c : ConnId) (p bs : List Byte) (w : World) :
    bufioRead (some c) p (.data bs) w
      = some (w.emit (.read c (bs.take p.length)), readInto p bs, min bs.length p.length,
          none) := by
  simp only [bufioRead, readInto, take_min_length]

theorem bufioRead_fail (c : ConnId) (p : List Byte) (err : GoError) (w : World) :
    bufioRead (some c) p (.fail err) w = some (w.emit (.readFail c err), p, 0, some err) :=
  rfl

theorem relayBuffer_length : (List.replicate chunkSize (0 : Byte)).length = chunkSize :=
  List.length_replicate _ _

theorem take_first_read (b1 : List Byte) :
    List.take (min b1.length chunkSize) (readInto (List.replicate chunkSize 0) b1)
      = b1.take chunkSize := by
  have h := readInto_take (List.replicate chunkSize 0) b1
  rwa [relayBuffer_length] at h

theorem take_second_read (b1 b2 : List Byte) :
    List.take (min b2.length chunkSize)
        (readInto (readInto (List.replicate chunkSize 0) b1) b2)
      = b2.take chunkSize := by
  have h := readInto_take (readInto (List.replicate chunkSize 0) b1) b2
  rwa [readInto_length, relayBuffer_length] at h

theorem relayIter_eq (it : Iter) (r : Relay) (w : World) (s t s1 t1 : ConnId)
    (hi : r.inputBuf = some s) (ho : r.outputBuf = some t)
    (hs : w.d.srcConn = some s1) (ht : w.d.dstConn = some t1) :
    relayIter it r w = some
      (⟨w.d, w.trace ++ (iterEvents s t s1 t1 it).1⟩, (iterEvents s t s1 t1 it).2) := by
  rcases w with ⟨d, tr⟩
  rcases it with ⟨re, wi, ri, we, cd, dc, pk⟩
  simp only at hs ht
  rcases re with b1 | e1
  · rcases wi with _ | e2
    · rcases ri with b2 | e3
      · rcases we with _ | e4
        · cases hsel : selectCase cd dc pk <;>
            simp [relayIter, iterEvents, bufioRead_data, bufioRead_fail, connWrite, World.emit,
              hi, ho, hs, ht, hsel, readInto_length, relayBuffer_length, take_first_read,
              take_second_read]
        · simp [relayIter, iterEvents, bufioRead_data, bufioRead_fail, connWrite, World.emit,
            hi, ho, hs, ht, readInto_length, relayBuffer_length, take_first_read,
            take_second_read, OnDelveFail, connClose]
      · by_cases he : e3 = .EOF <;>
          simp [relayIter, iterEvents, bufioRead_data, bufioRead_fail, connWrite, World.emit,
            hi, ho, hs, ht, he, readInto_length, relayBuffer_length, take_first_read,
            take_second_read, OnConnectionClose, connClose]
    · simp [relayIter, iterEvents, bufioRead_data, bufioRead_fail, connWrite, World.emit,
        hi, ho, hs, ht, readInto_length, relayBuffer_length, take_first_read,
        take_second_read, OnDelveFail, connClose]
  · by_cases he : e1 = .EOF <;>
      simp [relayIter, iterEvents, bufioRead_data, bufioRead_fail, connWrite, World.emit,
        hi, ho, hs, ht, he, OnConnectionClose, connClose]

theorem relayCleanup_eq (r : Relay) (w : World) (s1 : ConnId) (hs : w.d.srcConn = some s1) :
    relayCleanup r w = some ⟨w.d, w.trace ++ cleanupEvents r s1⟩ := by
  rcases w with ⟨d, tr⟩
  simp only at hs
  simp [relayCleanup, deferredClose, connClose, World.emit, cleanupEvents, hs]

theorem relayLoop_eq (its : List Iter) (r : Relay) (w : World) (s t s1 t1 : ConnId)
    (hi : r.inputBuf = some s) (ho : r.outputBuf = some t)
    (hs : w.d.srcConn = some s1) (ht : w.d.dstConn = some t1) :
    relayLoop its r w = some
      (⟨w.d, w.trace ++ (loopEvents r s t s1 t1 its).1⟩, (loopEvents r s t s1 t1 its).2) := by
  induction its generalizing w with
  | nil => simp [relayLoop, loopEvents]
  | cons it rest ih =>
    unfold relayLoop loopEvents
    rw [relayIter_eq it r w s t s1 t1 hi ho hs ht]
    rcases hit : iterEvents s t s1 t1 it with ⟨evs, _ | _⟩
    · simp only
      rw [ih ⟨w.d, w.trace ++ evs⟩ hs ht]
      simp
    · simp only
      rw [relayCleanup_eq r ⟨w.d, w.trace ++ evs⟩ s1 hs]
      simp

theorem succeeds_iff (it : Iter) :
    it.succeeds = true ↔ ∃ b1 b2, it.readExt = .data b1 ∧ it.writeInt = none ∧
      it.readInt = .data b2 ∧ it.writeExt = none := by
  rcases it with ⟨re, wi, ri, we, cd, dc, pk⟩
  rcases re with b1 | e1 <;> rcases wi with _ | e2 <;> rcases ri with b2 | e3 <;>
    rcases we with _ | e4 <;> simp [Iter.succeeds, ReadOutcome.isData]

theorem iterEvents_ok (s t s1 t1 : ConnId) (it : Iter) (b1 b2 : List Byte)
    (h1 : it.readExt = .data b1) (h2 : it.writeInt = none) (h3 : it.readInt = .data b2)
    (h4 : it.writeExt = none) :
    iterEvents s t s1 t1 it =
      (transferEvents s t s1 t1 b1 b2 ++
        (selectEvents (selectCase it.ctxDone it.disconnected it.pick)).1,
       (selectEvents (selectCase it.ctxDone it.disconnected it.pick)).2) := by
  unfold iterEvents
  simp only [h1, h2, h3, h4]
  cases selectCase it.ctxDone it.disconnected it.pick <;> simp [selectEvents, transferEvents]

theorem selectCase_default (cd dc pk : Bool) :
    selectCase cd dc pk = .default ↔ cd = false ∧ dc = false := by
  cases cd <;> cases dc <;> cases pk <;> simp [selectCase]

theorem selectEvents_noTransfer (c : SelectCase) :
    ∀ e ∈ (selectEvents c).1, e.isTransfer = false := by
  cases c <;> simp [selectEvents, Event.isTransfer]

theorem cleanupEvents_noTransfer (r : Relay) (s1 : ConnId) :
    ∀ e ∈ cleanupEvents r s1, e.isTransfer = false := by
  simp [cleanupEvents, Event.isTransfer]

theorem chunksRead_append (c : ConnId) (a b : List Event) :
    chunksRead c (a ++ b) = chunksRead c a ++ chunksRead c b := by
  simp [chunksRead]

theorem chunksWritten_append (c : ConnId) (a b : List Event) :
    chunksWritten c (a ++ b) = chunksWritten c a ++ chunksWritten c b := by
  simp [chunksWritten]

theorem loopEvents_cons_ret (r : Relay) (s t s1 t1 : ConnId) (it : Iter) (rest : List Iter)
    (evs : List Event) (h : iterEvents s t s1 t1 it = (evs, .ret)) :
    loopEvents r s t s1 t1 (it :: rest) = (evs ++ cleanupEvents r s1, .returned) := by
  simp [loopEvents, h]

theorem loopEvents_cons_next (r : Relay) (s t s1 t1 : ConnId) (it : Iter) (rest : List Iter)
    (evs : List Event) (h : iterEvents s t s1 t1 it = (evs, .next)) :
    loopEvents r s t s1 t1 (it :: rest) =
      (evs ++ (loopEvents r s t s1 t1 rest).1, (loopEvents r s t s1 t1 rest).2) := by
  simp [loopEvents, h]

theorem connClosed_append_right (c : ConnId) (tr evs : List Event)
    (h : Event.closeConn c ∈ evs) : connClosed c (tr ++ evs) = true := by
  simp [connClosed, h]

theorem connClosed_append_left (c : ConnId) (tr evs : List Event)
    (h : connClosed c tr = true) : connClosed c (tr ++ evs) = true := by
  simp only [connClosed, decide_eq_true_eq] at h
  simp [connClosed, h]

theorem iterEvents_ret_iff (s t s1 t1 : ConnId) (it : Iter) :
    (iterEvents s t s1 t1 it).2 = .ret ↔ it.stops = true := by
  rcases it with ⟨re, wi, ri, we, cd, dc, pk⟩
  rcases re with b1 | e1 <;> rcases wi with _ | e2 <;> rcases ri with b2 | e3 <;>
    rcases we with _ | e4 <;>
    simp [iterEvents, Iter.stops, Iter.succeeds, ReadOutcome.isData]
  cases cd <;> cases dc <;> cases pk <;> simp [selectCase]

theorem iterEvents_readFail (s t s1 t1 : ConnId) (it : Iter) (c : ConnId) (e : GoError)
    (h : Event.readFail c e ∈ (iterEvents s t s1 t1 it).1) :
    Event.closeConn t1 ∈ (iterEvents s t s1 t1 it).1 ∧ (iterEvents s t s1 t1 it).2 = .ret := by
  rcases it with ⟨re, wi, ri, we, cd, dc, pk⟩
  rcases re with b1 | e1
  · rcases wi with _ | e2
    · rcases ri with b2 | e3
      · rcases we with _ | e4
        · exfalso
          revert h
          simp only [iterEvents]
          cases selectCase cd dc pk <;> simp
        · simp [iterEvents] at h
      · simp [iterEvents]
    · simp [iterEvents] at h
  · simp [iterEvents]

theorem iterEvents_noRemove (s t s1 t1 : ConnId) (it : Iter) (f : String) :
    Event.remove f ∉ (iterEvents s t s1 t1 it).1 := by
  rcases it with ⟨re, wi, ri, we, cd, dc, pk⟩
  rcases re with b1 | e1
  · rcases wi with _ | e2
    · rcases ri with b2 | e3
      · rcases we with _ | e4
        · simp only [iterEvents]
          cases selectCase cd dc pk <;> simp
        · simp [iterEvents]
      · by_cases he : e3 = .EOF <;> simp [iterEvents, he]
    · simp [iterEvents]
  · by_cases he : e1 = .EOF <;> simp [iterEvents, he]

theorem loopEvents_returned_iff (r : Relay) (s t s1 t1 : ConnId) (its : List Iter) :
    (loopEvents r s t s1 t1 its).2 = .returned ↔ ∃ it ∈ its, it.stops = true := by
  induction its with
  | nil => simp [loopEvents]
  | cons it rest ih =>
    rcases hit : iterEvents s t s1 t1 it with ⟨evs, _ | _⟩
    · have hns : ¬ it.stops = true := by
        rw [← iterEvents_ret_iff s t s1 t1 it, hit]
        simp
      rw [loopEvents_cons_next r s t s1 t1 it rest evs hit]
      simp [ih, hns]
    · have hst : it.stops = true := by
        rw [← iterEvents_ret_iff s t s1 t1 it, hit]
      rw [loopEvents_cons_ret r s t s1 t1 it rest evs hit]
      simp [hst]

theorem loopEvents_returned (r : Relay) (s t s1 t1 : ConnId) (its : List Iter)
    (h : (loopEvents r s t s1 t1 its).2 = .returned) :
    Event.closeConn s1 ∈ (loopEvents r s t s1 t1 its).1 ∧
    Event.closeListener r.destListener ∈ (loopEvents r s t s1 t1 its).1 ∧
    Event.remove r.delve.filename ∈ (loopEvents r s t s1 t1 its).1 := by
  induction its with
  | nil => simp [loopEvents] at h
  | cons it rest ih =>
    rcases hit : iterEvents s t s1 t1 it with ⟨evs, _ | _⟩
    · rw [loopEvents_cons_next r s t s1 t1 it rest evs hit] at h ⊢
      obtain ⟨h1, h2, h3⟩ := ih h
      exact ⟨List.mem_append_right _ h1, List.mem_append_right _ h2,
        List.mem_append_right _ h3⟩
    · rw [loopEvents_cons_ret r s t s1 t1 it rest evs hit]
      simp [cleanupEvents]

theorem loopEvents_readFail (r : Relay) (s t s1 t1 : ConnId) (its : List Iter)
    (c : ConnId) (e : GoError) (h : Event.readFail c e ∈ (loopEvents r s t s1 t1 its).1) :
    Event.closeConn t1 ∈ (loopEvents r s t s1 t1 its).1 := by
  induction its with
  | nil => simp [loopEvents] at h
  | cons it rest ih =>
    rcases hit : iterEvents s t s1 t1 it with ⟨evs, _ | _⟩
    · rw [loopEvents_cons_next r s t s1 t1 it rest evs hit] at h ⊢
      rcases List.mem_append.mp h with h | h
      · have := (iterEvents_readFail s t s1 t1 it c e (by rw [hit]; exact h)).2
        rw [hit] at this
        cases this
      · exact List.mem_append_right _ (ih h)
    · rw [loopEvents_cons_ret r s t s1 t1 it rest evs hit] at h ⊢
      rcases List.mem_append.mp h with h | h
      · have := (iterEvents_readFail s t s1 t1 it c e (by rw [hit]; exact h)).1
        rw [hit] at this
        exact List.mem_append_left _ this
      · simp [cleanupEvents] at h

theorem startDelve_buildFail (env : WorkerEnv) (l : ListenerId) (w : World) (s1 : ConnId)
    (pkg : String) (e : GoError) (hs : w.d.srcConn = some s1) (ha : w.d.args[0]? = some pkg)
    (hb : env.goBuild = some e) :
    startDelve env l w = some
      (⟨w.d, w.trace ++ [.goBuild env.debugBinaryPath [pkg],
          .logErr "error in delve thread" (.wrap "error building binary" e),
          .closeConn s1, .closeListener l, .closeConn s1]⟩, .returned) := by
  rcases w with ⟨d, tr⟩
  simp only at hs ha
  simp [startDelve, startDelveSetup, runDelve, buildBinary, OnDelveFail, deferredClose,
    connClose, World.emit, hs, ha, hb]

theorem startDelve_runFail (env : WorkerEnv) (l : ListenerId) (w : World) (s1 : ConnId)
    (pkg : String) (e : GoError) (hs : w.d.srcConn = some s1) (ha : w.d.args[0]? = some pkg)
    (hb : env.goBuild = none) (hr : env.run = some e) :
    startDelve env l w = some
      (⟨w.d, w.trace ++ [.goBuild env.debugBinaryPath [pkg],
          .newServer (backendConfig env l w.d), .serverRun l,
          .logErr "error in delve thread" (.wrap "error running delve" e),
          .closeConn s1, .remove env.debugBinaryPath, .closeListener l, .closeConn s1]⟩,
        .returned) := by
  rcases w with ⟨d, tr⟩
  simp only at hs ha
  simp [startDelve, startDelveSetup, runDelve, buildBinary, OnDelveFail, deferredClose,
    connClose, World.emit, backendConfig, hs, ha, hb, hr]

theorem startDelveSetup_ok (env : WorkerEnv) (l : ListenerId) (w : World)
    (pkg : String) (ha : w.d.args[0]? = some pkg)
    (hb : env.goBuild = none) (hr : env.run = none) :
    startDelveSetup env l w = some
      (⟨w.d, w.trace ++ [.goBuild env.debugBinaryPath [pkg],
          .newServer (backendConfig env l w.d), .serverRun l]⟩, some (relayOf env l w.d)) := by
  rcases w with ⟨d, tr⟩
  simp only at ha
  simp [startDelveSetup, runDelve, buildBinary, World.emit, backendConfig, relayOf, ha, hb, hr]

theorem startDelve_relay (env : WorkerEnv) (l : ListenerId) (w : World)
    (pkg : String) (ha : w.d.args[0]? = some pkg)
    (hb : env.goBuild = none) (hr : env.run = none) :
    startDelve env l w = relayLoop env.iters (relayOf env l w.d)
      ⟨w.d, w.trace ++ [.goBuild env.debugBinaryPath [pkg],
          .newServer (backendConfig env l w.d), .serverRun l]⟩ := by
  simp [startDelve, startDelveSetup_ok env l w pkg ha hb hr]

/-- What a whole run of a worker does, for a worker whose session is the
recorded one. -/
theorem startDelve_trace (env : WorkerEnv) (l : ListenerId) (w : World) (s1 t1 : ConnId)
    (hs : w.d.srcConn = some s1) (ht : w.d.dstConn = some t1) (hargs : w.d.args ≠ []) :
    ∃ evs st, startDelve env l w = some (⟨w.d, w.trace ++ evs⟩, st) ∧
      (st = .returned ↔
        (env.goBuild ≠ none ∨ env.run ≠ none ∨ ∃ it ∈ env.iters, it.stops = true)) ∧
      (st = .returned → Event.closeConn s1 ∈ evs ∧ Event.closeListener l ∈ evs) ∧
      ((∃ c e, Event.readFail c e ∈ evs) → Event.closeConn t1 ∈ evs) ∧
      (env.goBuild = none → st = .returned → Event.remove env.debugBinaryPath ∈ evs) ∧
      (env.goBuild ≠ none → ∀ f, Event.remove f ∉ evs) := by
  obtain ⟨pkg, ha⟩ : ∃ pkg, w.d.args[0]? = some pkg := by
    rcases hd : w.d.args with _ | ⟨a, rest⟩
    · exact absurd hd hargs
    · exact ⟨a, by simp⟩
  rcases hb : env.goBuild with _ | e
  · rcases hr : env.run with _ | e
    · have hloop := relayLoop_eq env.iters (relayOf env l w.d)
        ⟨w.d, w.trace ++ [.goBuild env.debugBinaryPath [pkg],
          .newServer (backendConfig env l w.d), .serverRun l]⟩ s1 t1 s1 t1 hs ht hs ht
      rw [← startDelve_relay env l w pkg ha hb hr] at hloop
      simp only [List.append_assoc] at hloop
      refine ⟨_, _, hloop, ?_, ?_, ?_, ?_, ?_⟩
      · simp [loopEvents_returned_iff]
      · intro hst
        obtain ⟨h1, h2, -⟩ := loopEvents_returned _ _ _ _ _ _ hst
        exact ⟨List.mem_append_right _ h1, List.mem_append_right _ h2⟩
      · rintro ⟨c, e, hmem⟩
        rcases List.mem_append.mp hmem with h | h
        · simp at h
        · exact List.mem_append_right _ (loopEvents_readFail _ _ _ _ _ _ c e h)
      · intro _ hst
        obtain ⟨-, -, h3⟩ := loopEvents_returned _ _ _ _ _ _ hst
        exact List.mem_append_right _ h3
      · intro h
        exact absurd rfl h
    · refine ⟨_, _, startDelve_runFail env l w s1 pkg e hs ha hb hr, ?_⟩
      simp
  · refine ⟨_, _, startDelve_buildFail env l w s1 pkg e hs ha hb, ?_⟩
    simp

/-- End-of-stream on either read, for a worker whose connections are the
recorded ones or are already closed. -/
theorem relay_eof_closes_owned (it : Iter) (rest : List Iter) (r : Relay) (w : World)
    (s t s1 t1 : ConnId) (hi : r.inputBuf = some s) (ho : r.outputBuf = some t)
    (hs : w.d.srcConn = some s1) (ht : w.d.dstConn = some t1)
    (hown1 : s = s1 ∨ connClosed s w.trace = true)
    (hown2 : t = t1 ∨ connClosed t w.trace = true) :
    (it.readExt = .fail .EOF →
      ∃ w1 post, relayLoop (it :: rest) r w = some (w1, .returned) ∧
        w1.trace = w.trace ++ [.readFail s .EOF] ++ post ∧
        (∀ e ∈ post, e.isTransfer = false) ∧
        connClosed s w1.trace = true ∧ connClosed t w1.trace = true) ∧
    (∀ b1, it.readExt = .data b1 → it.writeInt = none → it.readInt = .fail .EOF →
      ∃ w1 post, relayLoop (it :: rest) r w = some (w1, .returned) ∧
        w1.trace = w.trace ++
          [.read s (b1.take chunkSize), .write t1 (b1.take chunkSize), .readFail t .EOF] ++
          post ∧
        (∀ e ∈ post, e.isTransfer = false) ∧
        connClosed s w1.trace = true ∧ connClosed t w1.trace = true) := by
  have hloop := relayLoop_eq (it :: rest) r w s t s1 t1 hi ho hs ht
  have hcl : ∀ pre : List Event,
      connClosed s (w.trace ++ pre ++ ([.closeConn s1, .closeConn t1] ++ cleanupEvents r s1))
        = true ∧
      connClosed t (w.trace ++ pre ++ ([.closeConn s1, .closeConn t1] ++ cleanupEvents r s1))
        = true := by
    intro pre
    constructor
    · rcases hown1 with rfl | h
      · exact connClosed_append_right _ _ _ (by simp)
      · rw [List.append_assoc]
        exact connClosed_append_left _ _ _ h
    · rcases hown2 with rfl | h
      · exact connClosed_append_right _ _ _ (by simp)
      · rw [List.append_assoc]
        exact connClosed_append_left _ _ _ h
  have hpost : ∀ e ∈ [Event.closeConn s1, Event.closeConn t1] ++ cleanupEvents r s1,
      e.isTransfer = false := by
    simp [cleanupEvents, Event.isTransfer]
  constructor
  · intro h1
    have hit : iterEvents s t s1 t1 it
        = ([.readFail s .EOF] ++ [.closeConn s1, .closeConn t1], .ret) := by
      simp [iterEvents, h1]
    rw [loopEvents_cons_ret r s t s1 t1 it rest _ hit] at hloop
    refine ⟨_, [.closeConn s1, .closeConn t1] ++ cleanupEvents r s1, hloop, by simp, hpost, ?_⟩
    have := hcl [.readFail s .EOF]
    simpa only [List.append_assoc] using this
  · intro b1 h1 h2 h3
    have hit : iterEvents s t s1 t1 it
        = ([.read s (b1.take chunkSize), .write t1 (b1.take chunkSize), .readFail t .EOF] ++
            [.closeConn s1, .closeConn t1], .ret) := by
      simp [iterEvents, h1, h2, h3]
    rw [loopEvents_cons_ret r s t s1 t1 it rest _ hit] at hloop
    refine ⟨_, [.closeConn s1, .closeConn t1] ++ cleanupEvents r s1, hloop, by simp, hpost, ?_⟩
    have := hcl [.read s (b1.take chunkSize), .write t1 (b1.take chunkSize), .readFail t .EOF]
    simpa only [List.append_assoc] using this

theorem ownedOrClosed_keep {s t : ConnId} {w w1 : World} (h : OwnedOrClosed s t w)
    (hk : KeepsPair w w1) : OwnedOrClosed s t w1 := by
  obtain ⟨⟨s1, hs, h1⟩, ⟨t1, ht, h2⟩⟩ := h
  obtain ⟨ks, kt, evs, htr, -⟩ := hk
  refine ⟨⟨s1, ks ▸ hs, ?_⟩, ⟨t1, kt ▸ ht, ?_⟩⟩
  · rcases h1 with h1 | h1
    · exact Or.inl h1
    · exact Or.inr (by rw [htr]; exact connClosed_append_left _ _ _ h1)
  · rcases h2 with h2 | h2
    · exact Or.inl h2
    · exact Or.inr (by rw [htr]; exact connClosed_append_left _ _ _ h2)

theorem ownedOrClosed_step {s t : ConnId} {op : Op} {w w1 : World} (h : OwnedOrClosed s t w)
    (hr : op.run w = some w1) : OwnedOrClosed s t w1 := by
  cases op with
  | accept env =>
    obtain ⟨⟨w2, err⟩, h2, h3⟩ := Option.map_eq_some'.mp hr
    simp only at h3
    subst h3
    rcases Accept_cases h2 with ⟨-, hk⟩ | ⟨rfl, a, b, l, hc, ha, hl, hd, hp⟩
    · exact ownedOrClosed_keep h hk
    · rw [Accept_success env w a b l hc ha hl hd hp] at h2
      simp only [Option.some.injEq, Prod.mk.injEq, and_true] at h2
      subst h2
      obtain ⟨⟨s1, hs, h1⟩, ⟨t1, ht, h2⟩⟩ := h
      have hprev : prevCloses w.d = [.closeConn s1, .closeConn t1] := by
        simp [prevCloses, hs, ht]
      refine ⟨⟨a, rfl, Or.inr ?_⟩, ⟨b, rfl, Or.inr ?_⟩⟩
      · rcases h1 with rfl | h1
        · exact connClosed_append_right _ _ _ (by simp [hprev])
        · exact connClosed_append_left _ _ _ h1
      · rcases h2 with rfl | h2
        · exact connClosed_append_right _ _ _ (by simp [hprev])
        · exact connClosed_append_left _ _ _ h2
  | close =>
    simp only [Op.run, Option.some.injEq] at hr
    subst hr
    exact ownedOrClosed_keep h (Close_keepsPair w)
  | setup env l =>
    obtain ⟨⟨w2, r⟩, h2, h3⟩ := Option.map_eq_some'.mp hr
    simp only at h3
    subst h3
    exact ownedOrClosed_keep h (startDelveSetup_step h2).keepsPair
  | relay its r =>
    obtain ⟨⟨w2, st⟩, h2, h3⟩ := Option.map_eq_some'.mp hr
    simp only at h3
    subst h3
    exact ownedOrClosed_keep h (relayLoop_step h2).keepsPair

/-- A worker that made its readers from the pair recorded in `w` reads, after
any further run of the server, from connections that are still the recorded
pair or have been closed by a later `Accept`. -/
theorem ownedOrClosed_runOps {s t : ConnId} {ops : List Op} {w w1 : World}
    (hs : w.d.srcConn = some s) (ht : w.d.dstConn = some t)
    (hr : runOps ops w = some w1) : OwnedOrClosed s t w1 := by
  have h0 : OwnedOrClosed s t w := ⟨⟨s, hs, Or.inl rfl⟩, ⟨t, ht, Or.inl rfl⟩⟩
  clear hs ht
  induction ops generalizing w with
  | nil =>
    simp only [runOps, Option.some.injEq] at hr
    subst hr
    exact h0
  | cons op ops ih =>
    obtain ⟨w2, h2, h3⟩ := Option.bind_eq_some.mp hr
    exact ih h3 (ownedOrClosed_step h0 h2)

theorem relayIter_split (it : Iter) (r : Relay) (w : World) :
    relayIter it r w =
      match relayIterHead it r w with
      | none => none
      | some (w, none) => some (w, .ret)
      | some (w, some (bytes, n)) => relayIterTail it bytes n w := by
  unfold relayIter relayIterHead
  rcases h1 : bufioRead r.inputBuf (List.replicate chunkSize 0) it.readExt w with
    _ | ⟨w2, bytes, n, _ | err⟩
  · simp only [h1]
  · simp only [h1]
    rcases h2 : connWrite w2.d.dstConn (List.take n bytes) it.writeInt w2 with
      _ | ⟨w3, _ | err⟩
    · simp only [h2]
    · simp only [h2]
      rcases h3 : bufioRead r.outputBuf bytes it.readInt w3 with
        _ | ⟨w4, bytes2, n2, _ | err⟩
      · simp only [h3]
      · simp only [h3, relayIterTail]
      · simp only [h3]
        cases OnConnectionClose
          (if err ≠ GoError.EOF then w4.emit (.logErr "error reading output connection" err)
            else w4) <;> simp
    · simp only [h2]
      cases OnDelveFail err w3 <;> simp
  · simp only [h1]
    cases OnConnectionClose
      (if err ≠ GoError.EOF then w2.emit (.logErr "error reading input connection" err)
        else w2) <;> simp

theorem relayIterHead_ok (it : Iter) (r : Relay) (w : World) (s t t1 : ConnId)
    (b1 b2 : List Byte) (hi : r.inputBuf = some s) (ho : r.outputBuf = some t)
    (ht : w.d.dstConn = some t1) (h1 : it.readExt = .data b1) (h2 : it.writeInt = none)
    (h3 : it.readInt = .data b2) :
    relayIterHead it r w = some
      (⟨w.d, w.trace ++ [.read s (b1.take chunkSize), .write t1 (b1.take chunkSize),
          .read t (b2.take chunkSize)]⟩,
        some (readInto (readInto (List.replicate chunkSize 0) b1) b2,
          min b2.length chunkSize)) := by
  rcases w with ⟨d, tr⟩
  simp only at ht
  simp [relayIterHead, bufioRead_data, connWrite, World.emit, hi, ho, ht, h1, h2, h3,
    readInto_length, relayBuffer_length, take_first_read]

theorem relayIterTail_ok (it : Iter) (w : World) (s1 : ConnId) (b1 b2 : List Byte)
    (hs : w.d.srcConn = some s1) (h4 : it.writeExt = none) :
    relayIterTail it (readInto (readInto (List.replicate chunkSize 0) b1) b2)
        (min b2.length chunkSize) w
      = some (⟨w.d, w.trace ++ [.write s1 (b2.take chunkSize)] ++
          (selectEvents (selectCase it.ctxDone it.disconnected it.pick)).1⟩,
        (selectEvents (selectCase it.ctxDone it.disconnected it.pick)).2) := by
  rcases w with ⟨d, tr⟩
  simp only at hs
  cases hsel : selectCase it.ctxDone it.disconnected it.pick <;>
    simp [relayIterTail, connWrite, World.emit, hs, h4, hsel, take_second_read, selectEvents]

theorem relayIterSuperseded_eq (it : Iter) (env : AcceptEnv) (r : Relay) (w : World)
    (s t s2 t2 : ConnId) (l : ListenerId) (b1 b2 : List Byte)
    (hi : r.inputBuf = some s) (ho : r.outputBuf = some t)
    (hs : w.d.srcConn = some s) (ht : w.d.dstConn = some t)
    (h1 : it.readExt = .data b1) (h2 : it.writeInt = none) (h3 : it.readInt = .data b2)
    (h4 : it.writeExt = none) (hc : w.d.Closed = false)
    (ha : env.accept = .ok s2) (hl : env.listen = .ok l) (hd : env.dial = .ok t2) :
    relayIterSuperseded it env r w = some
      (⟨{ w.d with srcConn := some s2, dstConn := some t2 },
        w.trace ++ [.read s (b1.take chunkSize), .write t (b1.take chunkSize),
            .read t (b2.take chunkSize)] ++
          [.listenerAccept w.d.Listener, .listen l, .dial t2, .closeConn s, .closeConn t,
            .setSrcConn s2, .setDstConn t2, .spawn l] ++
          [.write s2 (b2.take chunkSize)] ++
          (selectEvents (selectCase it.ctxDone it.disconnected it.pick)).1⟩,
        (selectEvents (selectCase it.ctxDone it.disconnected it.pick)).2) := by
  unfold relayIterSuperseded
  rw [relayIterHead_ok it r w s t t b1 b2 hi ho ht h1 h2 h3]
  simp only
  have hA := Accept_success env
    (⟨w.d, w.trace ++ [Event.read s (b1.take chunkSize), Event.write t (b1.take chunkSize),
      Event.read t (b2.take chunkSize)]⟩ : World) s2 t2 l hc ha hl hd (by simp [ht])
  rw [hA]
  simp only
  rw [relayIterTail_ok it _ s2 b1 b2 rfl h4]
  simp [prevCloses, hs, ht]

theorem iterEvents_quiet (s t : ConnId) (it : Iter) (h : it.stops = false) :
    iterEvents s t s t it = (it.transfers s t, .next) := by
  have hs : it.succeeds = true := by
    simp only [Iter.stops, Bool.or_eq_false_iff, Bool.not_eq_false'] at h
    exact h.1.1
  obtain ⟨b1, b2, h1, h2, h3, h4⟩ := (succeeds_iff it).mp hs
  have hd : selectCase it.ctxDone it.disconnected it.pick = .default := by
    simp only [Iter.stops, Bool.or_eq_false_iff] at h
    exact (selectCase_default _ _ _).mpr ⟨h.1.2, h.2⟩
  rw [iterEvents_ok s t s t it b1 b2 h1 h2 h3 h4, hd]
  simp [selectEvents, transferEvents, Iter.transfers, Iter.extChunk, Iter.intChunk, h1, h3]

theorem loopEvents_quiet (r : Relay) (s t : ConnId) (its : List Iter)
    (hq : ∀ it ∈ its, it.stops = false) :
    loopEvents r s t s t its = ((its.map (Iter.transfers s t)).flatten, .running) := by
  induction its with
  | nil => simp [loopEvents]
  | cons it rest ih =>
    rw [loopEvents_cons_next r s t s t it rest _ (iterEvents_quiet s t it (hq it (by simp))),
      ih (fun it2 h => hq it2 (by simp [h]))]
    simp

theorem chunks_of_transfers (s t : ConnId) (hne : s ≠ t) (its : List Iter) :
    chunksRead s (its.map (Iter.transfers s t)).flatten = its.map Iter.extChunk ∧
    chunksWritten t (its.map (Iter.transfers s t)).flatten = its.map Iter.extChunk ∧
    chunksRead t (its.map (Iter.transfers s t)).flatten = its.map Iter.intChunk ∧
    chunksWritten s (its.map (Iter.transfers s t)).flatten = its.map Iter.intChunk := by
  have hne2 : ¬ t = s := fun h => hne h.symm
  induction its with
  | nil => simp [chunksRead, chunksWritten]
  | cons it rest ih =>
    obtain ⟨i1, i2, i3, i4⟩ := ih
    simp only [List.map_cons, List.flatten_cons, chunksRead_append, chunksWritten_append,
      i1, i2, i3, i4]
    simp [Iter.transfers, chunksRead, chunksWritten, Event.readChunk, Event.writeChunk,
      List.filterMap_cons, hne, hne2]

/-- A worker that is not superseded and gets no termination signal relays
what the connections deliver: while every read and write succeeds, the loop
goes through every iteration, and its events are, iteration by iteration, the
read of the delivered chunk from the external connection, the write of that
chunk to the internal one, the read of the delivered chunk from the internal
connection and the write of that chunk to the external one. -/
theorem relay_copies_delivered (its : List Iter) (r : Relay) (w : World) (s t : ConnId)
    (hi : r.inputBuf = some s) (ho : r.outputBuf = some t)
    (hs : w.d.srcConn = some s) (ht : w.d.dstConn = some t) (hne : s ≠ t)
    (hq : ∀ it ∈ its, it.stops = false) :
    relayLoop its r w
      = some (⟨w.d, w.trace ++ (its.map (Iter.transfers s t)).flatten⟩, .running) ∧
    chunksRead s (its.map (Iter.transfers s t)).flatten = its.map Iter.extChunk ∧
    chunksWritten t (its.map (Iter.transfers s t)).flatten = its.map Iter.extChunk ∧
    chunksRead t (its.map (Iter.transfers s t)).flatten = its.map Iter.intChunk ∧
    chunksWritten s (its.map (Iter.transfers s t)).flatten = its.map Iter.intChunk := by
  refine ⟨?_, chunks_of_transfers s t hne its⟩
  rw [relayLoop_eq its r w s t s t hi ho hs ht, loopEvents_quiet r s t its hq]

/-! ## The claims -/

/-- C1: once `Close` has been called, whatever the server and its workers do
afterwards, every call of `Accept` returns `ErrServerClosed` and leaves the
world as it is: the listener is not called (the trace does not grow), nothing
panics (the result is not `none`), and the recorded connection pair is
unchanged. -/
theorem accept_after_close (w : World) (ops : List Op) (w1 : World)
    (h : runOps ops (Close w) = some w1) (env : AcceptEnv) :
    Accept env w1 = some (w1, some ErrServerClosed) ∧
      errorsIs ErrServerClosed ErrServerClosed = true :=
  ⟨Accept_closed env w1 (runOps_closed h rfl), by decide⟩

theorem accept_after_close_witness :
    runOps [.accept acceptA, .close] (Close (initial 0 ["./cmd/app"] "" "")) = some closedWorld ∧
      Accept acceptB closedWorld = some (closedWorld, some ErrServerClosed) ∧
      errorsIs ErrServerClosed ErrServerClosed = true :=
  ⟨by decide,
    accept_after_close (initial 0 ["./cmd/app"] "" "") [.accept acceptA, .close] closedWorld
      (by decide) acceptB⟩

/-- C2: in every state the server can reach, a successful `Accept` records
exactly the newly accepted and the newly dialed connection; when a pair was
recorded before, its two connections are closed first (the two `Close` calls
precede the two assignments in the trace); and afterwards every connection
that was ever recorded, other than the new pair, has been closed. -/
theorem accept_supersedes (l0 : ListenerId) (args : List String) (stdout stderr : String)
    (ops : List Op) (w : World)
    (hreach : runOps ops (initial l0 args stdout stderr) = some w) (hopen : w.d.Closed = false)
    (env : AcceptEnv) (s t : ConnId) (l : ListenerId)
    (ha : env.accept = .ok s) (hl : env.listen = .ok l) (hd : env.dial = .ok t) :
    ∃ w1, Accept env w = some (w1, none) ∧
      w1.d.srcConn = some s ∧ w1.d.dstConn = some t ∧
      (∀ s0, w.d.srcConn = some s0 → ∃ t0, w.d.dstConn = some t0 ∧
        w1.trace = w.trace ++ [.listenerAccept w.d.Listener, .listen l, .dial t,
          .closeConn s0, .closeConn t0, .setSrcConn s, .setDstConn t, .spawn l]) ∧
      (∀ c, recorded c w1.trace → c = s ∨ c = t ∨ connClosed c w1.trace = true) := by
  have hi : PairInv w := (PairInv.start l0 args stdout stderr).reach hreach
  refine ⟨_, Accept_success env w s t l hopen ha hl hd hi.both, rfl, rfl, ?_, ?_⟩
  · intro s0 hs0
    rcases ht : w.d.dstConn with _ | t0
    · exact absurd ht (hi.both (by simp [hs0]))
    · exact ⟨t0, rfl, by simp [prevCloses, hs0, ht]⟩
  · intro c hc
    rcases (hi.afterAccept s t l).closed c hc with h | h | h
    · exact Or.inl (by simpa using h.symm)
    · exact Or.inr (Or.inl (by simpa using h.symm))
    · exact Or.inr (Or.inr (by simpa [connClosed] using h))

theorem accept_supersedes_witness :
    runOps [.accept acceptA] (initial 0 ["./cmd/app", "-v"] "" "") = some sessionA ∧
    sessionA.d.Closed = false ∧
    ∃ w1, Accept acceptB sessionA = some (w1, none) ∧
      w1.d.srcConn = some 20 ∧ w1.d.dstConn = some 21 ∧
      (∀ s0, sessionA.d.srcConn = some s0 → ∃ t0, sessionA.d.dstConn = some t0 ∧
        w1.trace = sessionA.trace ++ [.listenerAccept sessionA.d.Listener, .listen 2, .dial 21,
          .closeConn s0, .closeConn t0, .setSrcConn 20, .setDstConn 21, .spawn 2]) ∧
      (∀ c, recorded c w1.trace → c = 20 ∨ c = 21 ∨ connClosed c w1.trace = true) :=
  ⟨by decide, rfl,
    accept_supersedes 0 ["./cmd/app", "-v"] "" "" [.accept acceptA] sessionA (by decide) rfl
      acceptB 20 21 2 rfl rfl rfl⟩

/-- C3, the code at the failing run: the worker of session A (external
connection 10, internal connection 11) reads "ping" from 10 and writes it to
11, then reads "pong" from 11; client B is accepted, which records the pair
(20, 21); the worker then writes "pong" to the connection held in
`d.srcConn`, which is 20, and returns on the disconnect signal.  No read and
no write has failed, the worker has read "pong" from its internal connection,
and it has written nothing to its external connection 10: the bytes went to
the external connection of session B. -/
theorem superseded_relay_crosses_sessions :
    startDelveSetup (workerOk []) 1 sessionA = some (runningA, some relayA) ∧
    relayA.inputBuf = some 10 ∧ relayA.outputBuf = some 11 ∧
    relayIterSuperseded { pingPong with disconnected := true } acceptB relayA runningA
      = some (crossed, .ret) ∧
    relayCleanup relayA crossed = some crossedEnd ∧
    crossedEnd.trace.all (fun e => !e.isFailure) = true ∧
    bytesRead 10 crossedEnd.trace = [112, 105, 110, 103] ∧
    bytesWritten 11 crossedEnd.trace = [112, 105, 110, 103] ∧
    bytesRead 11 crossedEnd.trace = [112, 111, 110, 103] ∧
    bytesWritten 10 crossedEnd.trace = [] ∧
    bytesWritten 20 crossedEnd.trace = [112, 111, 110, 103] := by
  refine ⟨by decide, rfl, rfl, ?_, by decide, by decide, by decide, by decide, by decide,
    by decide, by decide⟩
  rw [relayIterSuperseded_eq { pingPong with disconnected := true } acceptB relayA runningA
    10 11 20 21 2 [112, 105, 110, 103] [112, 111, 110, 103] rfl rfl rfl rfl rfl rfl rfl rfl
    rfl rfl rfl rfl]
  decide

/-- C4, the code at the failing run: client A is accepted and its worker
enters the relay loop; client B is accepted, which closes A's pair (10, 11)
and records B's pair (20, 21), both still open; the pending read of A's worker
then fails, and the steps A's worker takes (`OnConnectionClose` and the
deferred cleanup) call `Close` on connections 20 and 21, the pair of session
B, and on no connection of session A. -/
theorem superseded_worker_closes_new_pair :
    Accept acceptA (initial 0 ["./cmd/app", "-v"] "" "") = some (sessionA, none) ∧
    startDelveSetup (workerOk []) 1 sessionA = some (runningA, some relayA) ∧
    relayA.inputBuf = some 10 ∧ relayA.outputBuf = some 11 ∧
    Accept acceptB runningA = some (sessionB, none) ∧
    sessionB.d.srcConn = some 20 ∧ sessionB.d.dstConn = some 21 ∧
    connClosed 20 sessionB.trace = false ∧ connClosed 21 sessionB.trace = false ∧
    relayLoop [readClosed] relayA sessionB = some
      (⟨sessionB.d, sessionB.trace ++
        [.readFail 10 .netClosed, .logErr "error reading input connection" .netClosed,
          .closeConn 20, .closeConn 21, .serverStop 1, .remove "/tmp/__debug_bin",
          .closeListener 1, .closeConn 20]⟩, .returned) := by
  decide

/-- C5, as stated, fails: on a fresh server, when `Close` runs while `Accept`
waits on the listener and the listener then fails with its closed error,
`Accept` returns the accept error that wraps it, and
`errors.Is(err, ErrServerClosed)` is false. -/
theorem accept_interrupted_generic_error :
    AcceptInterrupted ⟨.error listenerClosedErr, .ok 1, .ok 11⟩ (.error listenerClosedErr)
        (initial 0 ["./cmd/app"] "" "")
      = some (⟨{ New 0 ["./cmd/app"] with Closed := true },
                [.listenerAccept 0, .closeListener 0]⟩,
              some (.wrap "error accepting tcp connection" listenerClosedErr)) ∧
    errorsIs (.wrap "error accepting tcp connection" listenerClosedErr) ErrServerClosed
      = false := by
  decide

/-- C5, amended: when `Close` runs while `Accept` waits on the listener and the
listener then fails with error `e`, `Accept` returns the accept error wrapping
`e`; for the listener-closed error the test `errors.Is(err, ErrServerClosed)`
is false.  The server is left closed: the next call of `Accept` returns
`ErrServerClosed`, and the next iteration of the loop of `main` exits on it. -/
theorem accept_interrupted_then_closed (env : AcceptEnv) (w : World) (e : GoError)
    (hopen : w.d.Closed = false) :
    AcceptInterrupted env (.error e) w
      = some (Close (w.emit (.listenerAccept w.d.Listener)),
              some (.wrap "error accepting tcp connection" e)) ∧
    errorsIs (.wrap "error accepting tcp connection" e) ErrServerClosed
      = errorsIs e ErrServerClosed ∧
    errorsIs (.wrap "error accepting tcp connection" listenerClosedErr) ErrServerClosed
      = false ∧
    ∀ (env2 : AcceptEnv) (ctxDone : Bool),
      Accept env2 (Close (w.emit (.listenerAccept w.d.Listener)))
        = some (Close (w.emit (.listenerAccept w.d.Listener)), some ErrServerClosed) ∧
      mainIter env2 ctxDone (Close (w.emit (.listenerAccept w.d.Listener)))
        = some ((Close (w.emit (.listenerAccept w.d.Listener))).emit
            (.log "server closed, exiting"), some .serverClosed) := by
  refine ⟨by simp [AcceptInterrupted, hopen, acceptResume], ?_, by decide, ?_⟩
  · simp [errorsIs, ErrServerClosed]
  · intro env2 ctxDone
    have h := Accept_closed env2 (Close (w.emit (.listenerAccept w.d.Listener))) rfl
    refine ⟨h, ?_⟩
    simp only [mainIter, h]
    have : errorsIs ErrServerClosed ErrServerClosed = true := by decide
    simp [this]

theorem accept_interrupted_then_closed_witness :
    (initial 0 ["./cmd/app"] "" "").d.Closed = false ∧
    AcceptInterrupted ⟨.error listenerClosedErr, .ok 1, .ok 11⟩ (.error listenerClosedErr)
        (initial 0 ["./cmd/app"] "" "")
      = some (Close ((initial 0 ["./cmd/app"] "" "").emit (.listenerAccept 0)),
              some (.wrap "error accepting tcp connection" listenerClosedErr)) :=
  ⟨rfl, (accept_interrupted_then_closed ⟨.error listenerClosedErr, .ok 1, .ok 11⟩
    (initial 0 ["./cmd/app"] "" "") listenerClosedErr rfl).1⟩

/-- C6: take a worker whose readers were made from the pair `(s, t)` recorded
at that time, and let the server run on in any way (further accepts, closes,
workers).  In the state reached, when the worker's read from the external
connection reports end-of-stream, or when (after a successful read and write)
its read from the internal connection reports end-of-stream, the worker
returns, it performs no read or write after the failed read, and both `s` and
`t` are closed. -/
theorem relay_eof_closes (w0 : World) (s t : ConnId) (hs0 : w0.d.srcConn = some s)
    (ht0 : w0.d.dstConn = some t) (r : Relay) (hi : r.inputBuf = some s)
    (ho : r.outputBuf = some t) (ops : List Op) (w : World) (hrun : runOps ops w0 = some w)
    (it : Iter) (rest : List Iter) :
    (it.readExt = .fail .EOF →
      ∃ w1 post, relayLoop (it :: rest) r w = some (w1, .returned) ∧
        w1.trace = w.trace ++ [.readFail s .EOF] ++ post ∧
        (∀ e ∈ post, e.isTransfer = false) ∧
        connClosed s w1.trace = true ∧ connClosed t w1.trace = true) ∧
    (∀ b1, it.readExt = .data b1 → it.writeInt = none → it.readInt = .fail .EOF →
      ∃ w1 t1 post, w.d.dstConn = some t1 ∧
        relayLoop (it :: rest) r w = some (w1, .returned) ∧
        w1.trace = w.trace ++
          [.read s (b1.take chunkSize), .write t1 (b1.take chunkSize), .readFail t .EOF] ++
          post ∧
        (∀ e ∈ post, e.isTransfer = false) ∧
        connClosed s w1.trace = true ∧ connClosed t w1.trace = true) := by
  obtain ⟨⟨s1, hs, h1⟩, ⟨t1, ht, h2⟩⟩ := ownedOrClosed_runOps hs0 ht0 hrun
  obtain ⟨ha, hb⟩ := relay_eof_closes_owned it rest r w s t s1 t1 hi ho hs ht h1 h2
  refine ⟨ha, ?_⟩
  intro b1 e1 e2 e3
  obtain ⟨w1, post, hh⟩ := hb b1 e1 e2 e3
  exact ⟨w1, t1, post, ht, hh⟩

theorem relay_eof_closes_witness :
    sessionA.d.srcConn = some 10 ∧ sessionA.d.dstConn = some 11 ∧
    relayA.inputBuf = some 10 ∧ relayA.outputBuf = some 11 ∧
    runOps [.setup (workerOk []) 1, .accept acceptB] sessionA = some sessionB ∧
    ∃ w1 post,
      relayLoop [{ pingPong with readExt := .fail .EOF }, pingPong] relayA sessionB
        = some (w1, .returned) ∧
      w1.trace = sessionB.trace ++ [.readFail 10 .EOF] ++ post ∧
      (∀ e ∈ post, e.isTransfer = false) ∧
      connClosed 10 w1.trace = true ∧ connClosed 11 w1.trace = true :=
  ⟨rfl, rfl, rfl, rfl, by decide,
    (relay_eof_closes sessionA 10 11 rfl rfl relayA rfl rfl
      [.setup (workerOk []) 1, .accept acceptB] sessionB (by decide)
      { pingPong with readExt := .fail .EOF } [pingPong]).1 rfl⟩

/-- C7, as stated, fails: for the worker of session A (external connection
10, internal connection 11), on a build failure, on a backend start failure,
on a write error, on cancellation and on the backend's disconnect signal the
worker returns with the external connection closed and the internal
connection not closed. -/
theorem worker_leaves_internal_open :
    (startDelve ⟨"/tmp/__debug_bin", some (.other "exit status 1"), none, []⟩ 1 sessionA).map
        (fun p => (p.2, connClosed 10 p.1.trace, connClosed 11 p.1.trace))
      = some (.returned, true, false) ∧
    (startDelve ⟨"/tmp/__debug_bin", none, some (.other "could not launch"), []⟩ 1 sessionA).map
        (fun p => (p.2, connClosed 10 p.1.trace, connClosed 11 p.1.trace))
      = some (.returned, true, false) ∧
    (startDelve (workerOk [{ pingPong with writeInt := some (.other "broken pipe") }]) 1
        sessionA).map (fun p => (p.2, connClosed 10 p.1.trace, connClosed 11 p.1.trace))
      = some (.returned, true, false) ∧
    (startDelve (workerOk [{ pingPong with ctxDone := true }]) 1 sessionA).map
        (fun p => (p.2, connClosed 10 p.1.trace, connClosed 11 p.1.trace))
      = some (.returned, true, false) ∧
    (startDelve (workerOk [{ pingPong with disconnected := true }]) 1 sessionA).map
        (fun p => (p.2, connClosed 10 p.1.trace, connClosed 11 p.1.trace))
      = some (.returned, true, false) := by
  decide

/-- C7, amended: take a session whose pair `(s, t)` has been recorded, and let
the server run on in any way (further accepts, closes, workers).  A worker of
that session that starts in the state reached, or that goes on with its relay
loop there, never panics; it returns exactly on its exit paths (build
failure, backend start failure, a failed read or write, cancellation, the
disconnect signal); whenever it returns, the session's external connection
`s` has been closed; and whenever one of its reads has failed (end-of-stream
or a read error, on either connection), the session's internal connection `t`
has been closed as well. -/
theorem worker_closes_external (w0 : World) (s t : ConnId) (hs0 : w0.d.srcConn = some s)
    (ht0 : w0.d.dstConn = some t) (ops : List Op) (w : World) (hrun : runOps ops w0 = some w)
    (hargs : w.d.args ≠ []) :
    (∀ env l, ∃ w1 st evs, startDelve env l w = some (w1, st) ∧ w1.trace = w.trace ++ evs ∧
      (st = .returned ↔
        (env.goBuild ≠ none ∨ env.run ≠ none ∨ ∃ it ∈ env.iters, it.stops = true)) ∧
      (st = .returned → connClosed s w1.trace = true ∧ Event.closeListener l ∈ evs) ∧
      ((∃ c e, Event.readFail c e ∈ evs) → connClosed t w1.trace = true)) ∧
    (∀ r its, r.inputBuf = some s → r.outputBuf = some t →
      ∃ w1 st evs, relayLoop its r w = some (w1, st) ∧ w1.trace = w.trace ++ evs ∧
        (st = .returned ↔ ∃ it ∈ its, it.stops = true) ∧
        (st = .returned →
          connClosed s w1.trace = true ∧ Event.closeListener r.destListener ∈ evs) ∧
        ((∃ c e, Event.readFail c e ∈ evs) → connClosed t w1.trace = true)) := by
  obtain ⟨⟨s1, hs, h1⟩, ⟨t1, ht, h2⟩⟩ := ownedOrClosed_runOps hs0 ht0 hrun
  have hcs : ∀ evs : List Event, Event.closeConn s1 ∈ evs →
      connClosed s (w.trace ++ evs) = true := by
    intro evs hmem
    rcases h1 with rfl | h1
    · exact connClosed_append_right _ _ _ hmem
    · exact connClosed_append_left _ _ _ h1
  have hct : ∀ evs : List Event, Event.closeConn t1 ∈ evs →
      connClosed t (w.trace ++ evs) = true := by
    intro evs hmem
    rcases h2 with rfl | h2
    · exact connClosed_append_right _ _ _ hmem
    · exact connClosed_append_left _ _ _ h2
  constructor
  · intro env l
    obtain ⟨evs, st, h, e1, e2, e3, -, -⟩ := startDelve_trace env l w s1 t1 hs ht hargs
    exact ⟨_, st, evs, h, rfl, e1, fun hst => ⟨hcs evs (e2 hst).1, (e2 hst).2⟩,
      fun hr => hct evs (e3 hr)⟩
  · intro r its hi ho
    refine ⟨_, _, _, relayLoop_eq its r w s t s1 t1 hi ho hs ht, rfl,
      loopEvents_returned_iff r s t s1 t1 its, ?_, ?_⟩
    · intro hst
      obtain ⟨a1, a2, -⟩ := loopEvents_returned r s t s1 t1 its hst
      exact ⟨hcs _ a1, a2⟩
    · rintro ⟨c, e, hmem⟩
      exact hct _ (loopEvents_readFail r s t s1 t1 its c e hmem)

theorem worker_closes_external_witness :
    sessionA.d.srcConn = some 10 ∧ sessionA.d.dstConn = some 11 ∧
    runOps [.setup (workerOk []) 1, .accept acceptB] sessionA = some sessionB ∧
    sessionB.d.args ≠ [] ∧ relayA.inputBuf = some 10 ∧ relayA.outputBuf = some 11 ∧
    ∃ w1 st evs, relayLoop [readClosed] relayA sessionB = some (w1, st) ∧
      w1.trace = sessionB.trace ++ evs ∧
      (st = .returned ↔ ∃ it ∈ [readClosed], it.stops = true) ∧
      (st = .returned →
        connClosed 10 w1.trace = true ∧ Event.closeListener relayA.destListener ∈ evs) ∧
      ((∃ c e, Event.readFail c e ∈ evs) → connClosed 11 w1.trace = true) :=
  ⟨rfl, rfl, by decide, by decide, rfl, rfl,
    (worker_closes_external sessionA 10 11 rfl rfl [.setup (workerOk []) 1, .accept acceptB]
      sessionB (by decide) (by decide)).2 relayA [readClosed] rfl rfl⟩

/-- C8, as stated, fails: when the build fails the worker of session A returns
without removing the artifact path the builder produced (or any other
file). -/
theorem worker_keeps_artifact_on_build_failure :
    (startDelve ⟨"/tmp/__debug_bin", some (.other "exit status 1"), none, []⟩ 1 sessionA).map
        (fun p => (p.2, decide (Event.remove "/tmp/__debug_bin" ∈ p.1.trace)))
      = some (.returned, false) := by
  decide

/-- C8, amended: in every run of a worker in which the build succeeded,
whether it ends on a success path or on a failure path (backend start failure,
relay read or write error), the artifact path has been removed by the time the
worker returns; when the build fails the worker returns without removing any
file. -/
theorem worker_removes_artifact (env : WorkerEnv) (l : ListenerId) (w : World) (s1 t1 : ConnId)
    (hs : w.d.srcConn = some s1) (ht : w.d.dstConn = some t1) (hargs : w.d.args ≠ []) :
    ∃ w1 st evs, startDelve env l w = some (w1, st) ∧ w1.trace = w.trace ++ evs ∧
      (st = .returned ↔
        (env.goBuild ≠ none ∨ env.run ≠ none ∨ ∃ it ∈ env.iters, it.stops = true)) ∧
      (env.goBuild = none → st = .returned → Event.remove env.debugBinaryPath ∈ evs) ∧
      (env.goBuild ≠ none → st = .returned ∧ ∀ f, Event.remove f ∉ evs) := by
  obtain ⟨evs, st, h, h1, -, -, h4, h5⟩ := startDelve_trace env l w s1 t1 hs ht hargs
  exact ⟨_, st, evs, h, rfl, h1, h4, fun hb => ⟨h1.mpr (Or.inl hb), h5 hb⟩⟩

theorem worker_removes_artifact_witness :
    sessionA.d.srcConn = some 10 ∧ sessionA.d.dstConn = some 11 ∧ sessionA.d.args ≠ [] ∧
    ∃ w1 st evs,
      startDelve (workerOk [{ pingPong with writeExt := some (.other "broken pipe") }]) 1
        sessionA = some (w1, st) ∧
      w1.trace = sessionA.trace ++ evs ∧
      (st = .returned ↔
        ((workerOk [{ pingPong with writeExt := some (.other "broken pipe") }]).goBuild ≠ none ∨
          (workerOk [{ pingPong with writeExt := some (.other "broken pipe") }]).run ≠ none ∨
          ∃ it ∈ (workerOk [{ pingPong with writeExt := some (.other "broken pipe") }]).iters,
            it.stops = true)) ∧
      ((workerOk [{ pingPong with writeExt := some (.other "broken pipe") }]).goBuild = none →
        st = .returned → Event.remove "/tmp/__debug_bin" ∈ evs) ∧
      ((workerOk [{ pingPong with writeExt := some (.other "broken pipe") }]).goBuild ≠ none →
        st = .returned ∧ ∀ f, Event.remove f ∉ evs) :=
  ⟨rfl, rfl, by decide,
    worker_removes_artifact (workerOk [{ pingPong with writeExt := some (.other "broken pipe") }])
      1 sessionA 10 11 rfl rfl (by decide)⟩

/-- C9: in every state of the relay loop, after an iteration whose reads and
writes all succeed, the termination check ends the loop when the context is
cancelled or the disconnect channel has fired: the worker returns and
performs no read or write after the four transfers of that iteration.  When
neither signal is present the loop goes on with the next iteration. -/
theorem relay_termination_check (it : Iter) (rest : List Iter) (r : Relay) (w : World)
    (s t s1 t1 : ConnId) (hi : r.inputBuf = some s) (ho : r.outputBuf = some t)
    (hs : w.d.srcConn = some s1) (ht : w.d.dstConn = some t1)
    (hok : it.succeeds = true) :
    ∃ b1 b2, it.readExt = .data b1 ∧ it.readInt = .data b2 ∧
      ((it.ctxDone = true ∨ it.disconnected = true) →
        ∃ w1 post, relayLoop (it :: rest) r w = some (w1, .returned) ∧
          w1.trace = w.trace ++ transferEvents s t s1 t1 b1 b2 ++ post ∧
          ∀ e ∈ post, e.isTransfer = false) ∧
      ((it.ctxDone = false ∧ it.disconnected = false) →
        relayIter it r w = some (⟨w.d, w.trace ++ transferEvents s t s1 t1 b1 b2⟩, .next) ∧
        relayLoop (it :: rest) r w
          = relayLoop rest r ⟨w.d, w.trace ++ transferEvents s t s1 t1 b1 b2⟩) := by
  obtain ⟨b1, b2, h1, h2, h3, h4⟩ := (succeeds_iff it).mp hok
  have hit := iterEvents_ok s t s1 t1 it b1 b2 h1 h2 h3 h4
  have hiter := relayIter_eq it r w s t s1 t1 hi ho hs ht
  have hloop := relayLoop_eq (it :: rest) r w s t s1 t1 hi ho hs ht
  refine ⟨b1, b2, h1, h3, ?_, ?_⟩
  · intro hsig
    have hnd : selectCase it.ctxDone it.disconnected it.pick ≠ .default := by
      intro h
      have := (selectCase_default _ _ _).mp h
      rcases hsig with h5 | h5 <;> simp [this] at h5
    have hret : (selectEvents (selectCase it.ctxDone it.disconnected it.pick)).2 = .ret := by
      cases hc : selectCase it.ctxDone it.disconnected it.pick
      · rfl
      · rfl
      · exact absurd hc hnd
    rw [loopEvents_cons_ret r s t s1 t1 it rest _ (by rw [hit, hret])] at hloop
    refine ⟨_, (selectEvents (selectCase it.ctxDone it.disconnected it.pick)).1 ++
      cleanupEvents r s1, hloop, by simp, ?_⟩
    intro e he
    rcases List.mem_append.mp he with he | he
    · exact selectEvents_noTransfer _ e he
    · exact cleanupEvents_noTransfer r s1 e he
  · intro hnone
    have hd : selectCase it.ctxDone it.disconnected it.pick = .default :=
      (selectCase_default _ _ _).mpr hnone
    rw [hd] at hit
    simp only [selectEvents, List.append_nil] at hit
    rw [hit] at hiter
    refine ⟨hiter, ?_⟩
    conv_lhs => unfold relayLoop
    rw [hiter]

theorem relay_termination_check_witness :
    relayA.inputBuf = some 10 ∧ relayA.outputBuf = some 11 ∧
    runningA.d.srcConn = some 10 ∧ runningA.d.dstConn = some 11 ∧
    ({ pingPong with disconnected := true } : Iter).succeeds = true ∧
    ∃ b1 b2, ({ pingPong with disconnected := true } : Iter).readExt = .data b1 ∧
      ({ pingPong with disconnected := true } : Iter).readInt = .data b2 ∧
      ((({ pingPong with disconnected := true } : Iter).ctxDone = true ∨
          ({ pingPong with disconnected := true } : Iter).disconnected = true) →
        ∃ w1 post,
          relayLoop [{ pingPong with disconnected := true }, pingPong] relayA runningA
            = some (w1, .returned) ∧
          w1.trace = runningA.trace ++ transferEvents 10 11 10 11 b1 b2 ++ post ∧
          ∀ e ∈ post, e.isTransfer = false) ∧
      ((({ pingPong with disconnected := true } : Iter).ctxDone = false ∧
          ({ pingPong with disconnected := true } : Iter).disconnected = false) →
        relayIter { pingPong with disconnected := true } relayA runningA
          = some (⟨runningA.d, runningA.trace ++ transferEvents 10 11 10 11 b1 b2⟩, .next) ∧
        relayLoop [{ pingPong with disconnected := true }, pingPong] relayA runningA
          = relayLoop [pingPong] relayA
              ⟨runningA.d, runningA.trace ++ transferEvents 10 11 10 11 b1 b2⟩) :=
  ⟨rfl, rfl, rfl, rfl, by decide,
    relay_termination_check { pingPong with disconnected := true } [pingPong] relayA runningA
      10 11 10 11 rfl rfl rfl rfl (by decide)⟩

/-- C10: for a non-empty argument list and a successful build, `runDelve`
returns an instance whose process arguments have the length of the server's
arguments, the built file at index 0 and the server's arguments at every other
index; the build is run on `args[0]`, the server's own arguments are unchanged
and are what the backend gets as its packages. -/
theorem runDelve_processArgs (env : WorkerEnv) (l : ListenerId) (w : World)
    (hargs : w.d.args ≠ []) (hbuild : env.goBuild = none) :
    ∃ w1 inst, runDelve env l w = some (w1, .ok inst) ∧
      inst.filename = env.debugBinaryPath ∧
      inst.server.ProcessArgs.length = w.d.args.length ∧
      inst.server.ProcessArgs[0]? = some env.debugBinaryPath ∧
      (∀ i, 1 ≤ i → inst.server.ProcessArgs[i]? = w.d.args[i]?) ∧
      w1.d.args = w.d.args ∧ inst.server.Packages = w.d.args ∧
      (∀ pkg, w.d.args[0]? = some pkg →
        Event.goBuild env.debugBinaryPath [pkg] ∈ w1.trace) := by
  rcases w with ⟨d, tr⟩
  rcases hd : d.args with _ | ⟨a, rest⟩
  · exact absurd hd hargs
  · simp only [runDelve, buildBinary, hd, hbuild, World.emit, List.getElem?_cons_zero,
      List.nil_append, List.set_cons_zero, Option.some.injEq, Prod.mk.injEq, Except.ok.injEq]
    refine ⟨_, _, ⟨rfl, rfl⟩, rfl, by simp, by simp, ?_, hd, rfl, by simp⟩
    intro i hi
    rcases i with _ | i
    · omega
    · simp

theorem runDelve_processArgs_witness :
    (initial 0 ["./cmd/app", "-v"] "" "").d.args ≠ [] ∧ (workerOk []).goBuild = none ∧
    ∃ w1 inst, runDelve (workerOk []) 1 (initial 0 ["./cmd/app", "-v"] "" "")
        = some (w1, .ok inst) ∧
      inst.filename = "/tmp/__debug_bin" ∧
      inst.server.ProcessArgs.length = 2 ∧
      inst.server.ProcessArgs[0]? = some "/tmp/__debug_bin" ∧
      (∀ i, 1 ≤ i → inst.server.ProcessArgs[i]? = ["./cmd/app", "-v"][i]?) ∧
      w1.d.args = ["./cmd/app", "-v"] ∧ inst.server.Packages = ["./cmd/app", "-v"] ∧
      (∀ pkg, ["./cmd/app", "-v"][0]? = some pkg →
        Event.goBuild "/tmp/__debug_bin" [pkg] ∈ w1.trace) :=
  ⟨by decide, rfl,
    runDelve_processArgs (workerOk []) 1 (initial 0 ["./cmd/app", "-v"] "" "") (by decide) rfl⟩

end Delve
